import Mathlib

/-!
# mhwd `Data.cpp`: device binding, priority insertion, dependencies, conflicts

A shallow embedding of the matching and resolution engine of `src/Data.cpp`.
`std::vector` is `List`, `std::string` is `String`, `int` priorities are `Int`,
a `std::shared_ptr<T>` is the value it points to, and a null pointer result is
`Option`.  The C library matcher `fnmatch` is a parameter `fnm` of every
definition that calls it, so the general theorems hold for any matcher; the
concrete model `fnmatch` below is used where a statement is evaluated.
-/

namespace Mhwd

/-! ## Data model -/

/-- Modelled from the spec: the `HardwareID` record of `Config.hpp` (not in the
sources at hand), one whitelist and one blacklist of patterns for each of the
class, vendor and device identifiers; field names as `Data.cpp` uses them. -/
structure HardwareID where
  classIDs : List String
  vendorIDs : List String
  deviceIDs : List String
  blacklistedClassIDs : List String
  blacklistedVendorIDs : List String
  blacklistedDeviceIDs : List String
deriving DecidableEq, Repr

/-- Modelled from the spec: the `Config` record of `Config.hpp` (not in the
sources at hand): bus type, provenance, name, priority, rule sequence,
conflict patterns and dependency names; field names as `Data.cpp` uses them. -/
structure Config where
  type_ : String
  configPath_ : String
  name_ : String
  priority_ : Int
  hwdIDs_ : List HardwareID
  conflicts_ : List String
  dependencies_ : List String
deriving DecidableEq, Repr

/-- Modelled from the spec: the `Device` record of `Device.hpp` (not in the
sources at hand); the identifier and name fields are the ones `fillDevices`
assigns, the two config lists are the ones `setMatchingConfig` fills. -/
structure Device where
  type_ : String
  classID_ : String
  vendorID_ : String
  deviceID_ : String
  className_ : String
  vendorName_ : String
  deviceName_ : String
  sysfsBusID_ : String
  sysfsID_ : String
  availableConfigs_ : List Config
  installedConfigs_ : List Config
deriving DecidableEq, Repr

/-- Modelled from the spec: the member vectors of class `Data` (`Data.hpp` is
not in the sources at hand), named as `Data.cpp` uses them. -/
structure Data where
  PCIDevices : List Device
  USBDevices : List Device
  allPCIConfigs : List Config
  allUSBConfigs : List Config
  installedPCIConfigs : List Config
  installedUSBConfigs : List Config
  invalidConfigs : List Config
deriving Repr

/-! ## The pattern matcher -/

/-- The flag `FNM_CASEFOLD` of `<fnmatch.h>` (glibc value `1 << 4`). -/
def FNM_CASEFOLD : Nat := 16

/-- Try the continuation `k` on every suffix of the input: what a `*` does. -/
def starMatch (k : List Char → Bool) : List Char → Bool
  | [] => k []
  | c :: cs => k (c :: cs) || starMatch k cs

/-- Glob matching of a pattern against a whole string: `*` is any run, `?` is
any one character, any other character stands for itself (compared after
`fold`).  Bracket expressions and backslash escapes are outside this model. -/
def globMatch (fold : Char → Char) : List Char → List Char → Bool
  | [], s => s.isEmpty
  | p :: ps, s =>
    if p = '*' then starMatch (globMatch fold ps) s
    else match s with
      | [] => false
      | c :: cs =>
        if p = '?' then globMatch fold ps cs
        else fold p == fold c && globMatch fold ps cs

/-- Model of the C library call `fnmatch(pattern, string, flags)` for patterns
built from ordinary characters, `?` and `*`: `0` on a match, `FNM_NOMATCH`
(`1`) otherwise; with `FNM_CASEFOLD` set, letters are compared without case. -/
def fnmatch (pattern string : String) (flags : Nat) : Int :=
  let fold : Char → Char := if flags / FNM_CASEFOLD % 2 = 1 then Char.toLower else id
  if globMatch fold pattern.data string.data then 0 else 1

/-! ## `Data::getAllDevicesOfConfig` (Data.cpp 117-188) -/

/-- The `std::find_if(...) != end()` tests of lines 132-169: does some pattern
of `patterns` match `value` (`!fnm(pattern, value, FNM_CASEFOLD)`)? -/
def findIfMatch (fnm : String → String → Nat → Int) (patterns : List String)
    (value : String) : Bool :=
  patterns.any (fun pattern => fnm pattern value FNM_CASEFOLD == 0)

/-- The nested checks of lines 132-179 for one rule and one device: `true`
exactly when line 172 (`foundDevice = true; push_back`) is reached. -/
def deviceMatches (fnm : String → String → Nat → Int) (hwdID : HardwareID)
    (device : Device) : Bool :=
  -- Check class ids
  let found := findIfMatch fnm hwdID.classIDs device.classID_
  if found then
    -- Check blacklisted class ids
    let found := findIfMatch fnm hwdID.blacklistedClassIDs device.classID_
    if !found then
      -- Check vendor ids
      let found := findIfMatch fnm hwdID.vendorIDs device.vendorID_
      if found then
        -- Check blacklisted vendor ids
        let found := findIfMatch fnm hwdID.blacklistedVendorIDs device.vendorID_
        if !found then
          -- Check device ids
          let found := findIfMatch fnm hwdID.deviceIDs device.deviceID_
          if found then
            -- Check blacklisted device ids
            let found := findIfMatch fnm hwdID.blacklistedDeviceIDs device.deviceID_
            if !found then true else false
          else false
        else false
      else false
    else false
  else false

/-- The inner loop of lines 128-180 over the devices, on the state
`(foundDevice, foundDevices)`. -/
def checkAllDevices (fnm : String → String → Nat → Int) (hwdID : HardwareID) :
    List Device → Bool × List Device → Bool × List Device
  | [], state => state
  | device :: rest, (foundDevice, foundDevices) =>
    if deviceMatches fnm hwdID device then
      checkAllDevices fnm hwdID rest (true, foundDevices ++ [device])
    else
      checkAllDevices fnm hwdID rest (foundDevice, foundDevices)

/-- The outer loop of lines 123-187 over the rules, with the early return of
lines 182-186 (`foundDevices.clear(); return;`). -/
def hwdIDLoop (fnm : String → String → Nat → Int) (devices : List Device) :
    List HardwareID → List Device → List Device
  | [], foundDevices => foundDevices
  | hwdID :: rest, foundDevices =>
    let state := checkAllDevices fnm hwdID devices (false, foundDevices)
    if !state.1 then []
    else hwdIDLoop fnm devices rest state.2

/-- `Data::getAllDevicesOfConfig(devices, config, foundDevices)`: the final
content of the out-parameter `foundDevices`, which line 121 clears first. -/
def getAllDevicesOfConfig (fnm : String → String → Nat → Int) (devices : List Device)
    (config : Config) : List Device :=
  hwdIDLoop fnm devices config.hwdIDs_ []

/-- The condition the rule evaluator is specified by, as a flat conjunction:
the classID matches some class whitelist pattern and no class blacklist
pattern, and likewise for the vendorID and the deviceID. -/
def passesRule (fnm : String → String → Nat → Int) (hwdID : HardwareID)
    (device : Device) : Prop :=
  ((∃ p ∈ hwdID.classIDs, fnm p device.classID_ FNM_CASEFOLD = 0) ∧
    ¬ (∃ p ∈ hwdID.blacklistedClassIDs, fnm p device.classID_ FNM_CASEFOLD = 0)) ∧
  ((∃ p ∈ hwdID.vendorIDs, fnm p device.vendorID_ FNM_CASEFOLD = 0) ∧
    ¬ (∃ p ∈ hwdID.blacklistedVendorIDs, fnm p device.vendorID_ FNM_CASEFOLD = 0)) ∧
  ((∃ p ∈ hwdID.deviceIDs, fnm p device.deviceID_ FNM_CASEFOLD = 0) ∧
    ¬ (∃ p ∈ hwdID.blacklistedDeviceIDs, fnm p device.deviceID_ FNM_CASEFOLD = 0))

/-! ## `Data::addConfigSorted` (Data.cpp 526-547) -/

/-- The loop of lines 537-545: insert `newConfig` before the first entry of
strictly lower priority, or append it when there is none. -/
def insertByPriority (newConfig : Config) : List Config → List Config
  | [] => [newConfig]
  | config :: rest =>
    if newConfig.priority_ > config.priority_ then newConfig :: config :: rest
    else config :: insertByPriority newConfig rest

/-- `Data::addConfigSorted(configs, newConfig)`: the content of `configs`
after the call. -/
def addConfigSorted (configs : List Config) (newConfig : Config) : List Config :=
  let found := configs.any (fun config => newConfig.name_ == config.name_)
  if !found then insertByPriority newConfig configs else configs

/-- Inserting an arrival sequence one by one into an empty list. -/
def addAllSorted (arrivals : List Config) : List Config :=
  arrivals.foldl addConfigSorted []

/-- What a stable sort by descending priority of `arrivals` is: `sorted` has
the same entries, each priority is at least the next one, and the entries of
any one priority stand in their arrival order. -/
def IsStableDescendingSort (arrivals sorted : List Config) : Prop :=
  sorted.Perm arrivals ∧
  sorted.Pairwise (fun a b => a.priority_ ≥ b.priority_) ∧
  ∀ p : Int, sorted.filter (fun c => c.priority_ == p) =
    arrivals.filter (fun c => c.priority_ == p)

/-! ## `Data::getDatabaseConfig` and `Data::getAllDependenciesToInstall`
(Data.cpp 190-268) -/

/-- `Data::getDatabaseConfig(configName, configType)`: the first config of
that name in the catalog of the bus type, `none` for `nullptr`. -/
def getDatabaseConfig (data : Data) (configName configType : String) : Option Config :=
  let allConfigs := if "USB" = configType then data.allUSBConfigs else data.allPCIConfigs
  allConfigs.find? (fun config => configName == config.name_)

/-- The `for` loop of lines 214-240 over the dependency names of a config of
bus type `type_`, on the accumulator `dependencies`; `recurse` is the
recursive call of line 236, `none` when it does not return. -/
def dependencyLoop (data : Data) (recurse : Config → List Config → Option (List Config))
    (type_ : String) (installedConfigs : List Config) :
    List String → List Config → Option (List Config)
  | [], dependencies => some dependencies
  | configDependency :: rest, dependencies =>
    let found := installedConfigs.any (fun config => config.name_ == configDependency)
    if !found then
      let found := dependencies.any (fun config => config.name_ == configDependency)
      if !found then
        -- Add to vector and check for further subdepends...
        match getDatabaseConfig data configDependency type_ with
        | some dependconfig =>
          match recurse dependconfig (dependencies ++ [dependconfig]) with
          | some dependencies =>
            dependencyLoop data recurse type_ installedConfigs rest dependencies
          | none => none
        | none => dependencyLoop data recurse type_ installedConfigs rest dependencies
      else dependencyLoop data recurse type_ installedConfigs rest dependencies
    else dependencyLoop data recurse type_ installedConfigs rest dependencies

/-- `Data::getAllDependenciesToInstall(config, installedConfigs, dependencies)`
run with recursion depth at most `depth`: the final content of
`*dependencies`, or `none` when a call at depth `depth` would be needed. -/
def getAllDependenciesToInstallRec (data : Data) :
    Nat → Config → List Config → List Config → Option (List Config)
  | 0, _, _, _ => none
  | depth + 1, config, installedConfigs, dependencies =>
    dependencyLoop data
      (fun dependconfig acc =>
        getAllDependenciesToInstallRec data depth dependconfig installedConfigs acc)
      config.type_ installedConfigs config.dependencies_ dependencies

/-- `Data::getAllDependenciesToInstall(config)` (lines 190-208) run with
recursion depth at most `depth`: the installed list of the bus type, an empty
accumulator. -/
def getAllDependenciesToInstall (data : Data) (depth : Nat) (config : Config) :
    Option (List Config) :=
  let installedConfigs :=
    if "USB" = config.type_ then data.installedUSBConfigs else data.installedPCIConfigs
  getAllDependenciesToInstallRec data depth config installedConfigs []

/-- A recursion depth that always suffices: one more than the number of
configs in the two catalogs. -/
def depthBound (data : Data) : Nat :=
  data.allPCIConfigs.length + data.allUSBConfigs.length + 1

/-- Every config is stored in the catalog its bus type selects, as
`fillAllConfigs` builds the catalogs. -/
def CatalogsTyped (data : Data) : Prop :=
  (∀ c ∈ data.allUSBConfigs, c.type_ = "USB") ∧ (∀ c ∈ data.allPCIConfigs, c.type_ = "PCI")

/-- The catalog `getDatabaseConfig` searches for a bus type (lines 248-255). -/
def catalogOfType (data : Data) (configType : String) : List Config :=
  if "USB" = configType then data.allUSBConfigs else data.allPCIConfigs

/-- The installed list `getAllDependenciesToInstall` takes for a bus type
(lines 196-203). -/
def installedOfType (data : Data) (configType : String) : List Config :=
  if "USB" = configType then data.installedUSBConfigs else data.installedPCIConfigs

/-- The invariant of the accumulator `dependencies` of the resolver: no two
entries of one name, no entry named as an installed config, every entry from
one of the two catalogs and with the property `Q`. -/
def ResolverInv (data : Data) (Q : Config → Prop) (installedConfigs dependencies : List Config) :
    Prop :=
  (dependencies.map (fun c => c.name_)).Nodup ∧
  (∀ c ∈ dependencies, ∀ i ∈ installedConfigs, i.name_ ≠ c.name_) ∧
  (∀ c ∈ dependencies, c ∈ data.allPCIConfigs ++ data.allUSBConfigs) ∧
  ∀ c ∈ dependencies, Q c

/-! ## `Data::getAllLocalConflicts` (Data.cpp 270-321) -/

/-- The loop of lines 295-316 over the installed configs, for the target name
`configName` and one conflict pattern, on the vector `conflicts`; the `break`
of line 313 ends it. -/
def installedConflictLoop (fnm : String → String → Nat → Int) (configName : String)
    (dependencyConflict : String) : List Config → List Config → List Config
  | [], conflicts => conflicts
  | installedConfig :: rest, conflicts =>
    -- Skip yourself
    if installedConfig.name_ == configName then
      installedConflictLoop fnm configName dependencyConflict rest conflicts
    else if fnm dependencyConflict installedConfig.name_ FNM_CASEFOLD == 0 then
      -- Check if conflicts is already in the conflicts vector
      let found := conflicts.any (fun conflict => conflict.name_ == dependencyConflict)
      if !found then conflicts ++ [installedConfig]
      else installedConflictLoop fnm configName dependencyConflict rest conflicts
    else installedConflictLoop fnm configName dependencyConflict rest conflicts

/-- The loop of lines 292-317 over the conflict patterns of one dependency. -/
def conflictPatternLoop (fnm : String → String → Nat → Int) (configName : String)
    (installedConfigs : List Config) : List String → List Config → List Config
  | [], conflicts => conflicts
  | dependencyConflict :: rest, conflicts =>
    conflictPatternLoop fnm configName installedConfigs rest
      (installedConflictLoop fnm configName dependencyConflict installedConfigs conflicts)

/-- The loop of lines 289-318 over the dependencies. -/
def dependencyConflictLoop (fnm : String → String → Nat → Int) (configName : String)
    (installedConfigs : List Config) : List Config → List Config → List Config
  | [], conflicts => conflicts
  | dependency :: rest, conflicts =>
    dependencyConflictLoop fnm configName installedConfigs rest
      (conflictPatternLoop fnm configName installedConfigs dependency.conflicts_ conflicts)

/-- `Data::getAllLocalConflicts(config)`, with the call of line 273 run at
recursion depth at most `depth`: the returned vector, `none` when that call
does not return. -/
def getAllLocalConflicts (fnm : String → String → Nat → Int) (data : Data) (depth : Nat)
    (config : Config) : Option (List Config) :=
  match getAllDependenciesToInstall data depth config with
  | none => none
  | some dependencies =>
    let installedConfigs :=
      if "USB" = config.type_ then data.installedUSBConfigs else data.installedPCIConfigs
    -- Add self to local dependencies vector
    let dependencies := dependencies ++ [config]
    some (dependencyConflictLoop fnm config.name_ installedConfigs dependencies [])

/-- The first installed config, in installed order, that is not named
`configName` and whose name the pattern matches: the candidate the scan of
lines 295-316 meets first. -/
def firstConflict (fnm : String → String → Nat → Int) (configName : String)
    (dependencyConflict : String) (installedConfigs : List Config) : Option Config :=
  installedConfigs.find?
    (fun i => !(i.name_ == configName) && fnm dependencyConflict i.name_ FNM_CASEFOLD == 0)

/-! ## `Data::getAllLocalRequirements` (Data.cpp 323-360) -/

/-- The loop of lines 340-356 over the dependency names of one installed
config, on the vector `requirements`; the `break` of line 353 ends it. -/
def requirementDependencyLoop (configName : String) (installedConfig : Config) :
    List String → List Config → List Config
  | [], requirements => requirements
  | dependency :: rest, requirements =>
    if dependency == configName then
      let found := requirements.any (fun req => req.name_ == installedConfig.name_)
      if !found then requirements ++ [installedConfig]
      else requirementDependencyLoop configName installedConfig rest requirements
    else requirementDependencyLoop configName installedConfig rest requirements

/-- The loop of lines 338-357 over the installed configs. -/
def requirementLoop (configName : String) : List Config → List Config → List Config
  | [], requirements => requirements
  | installedConfig :: rest, requirements =>
    requirementLoop configName rest
      (requirementDependencyLoop configName installedConfig installedConfig.dependencies_
        requirements)

/-- `Data::getAllLocalRequirements(config)`: the returned vector. -/
def getAllLocalRequirements (data : Data) (config : Config) : List Config :=
  let installedConfigs :=
    if "USB" = config.type_ then data.installedUSBConfigs else data.installedPCIConfigs
  requirementLoop config.name_ installedConfigs []

/-- The first entry of each name, in order: what "once per name" keeps. -/
def firstOfEachName : List Config → List Config
  | [] => []
  | c :: rest => c :: (firstOfEachName rest).filter (fun x => x.name_ != c.name_)

/-! ## `Data::setMatchingConfigs` and `Data::setMatchingConfig`
(Data.cpp 496-524)

The devices are held by `std::shared_ptr` and `setMatchingConfig` writes
through the pointers that `getAllDevicesOfConfig` returns.  A pointer is the
position of its device in the vector `devices`; the vector of devices is the
state the writes act on. -/

/-- The inner loop of lines 128-180 as `checkAllDevices`, pushing the position
of each device instead of its value; `i` is the position of the head. -/
def checkAllDevicesAt (fnm : String → String → Nat → Int) (hwdID : HardwareID) :
    List Device → Nat → Bool × List Nat → Bool × List Nat
  | [], _, state => state
  | device :: rest, i, (foundDevice, foundDevices) =>
    if deviceMatches fnm hwdID device then
      checkAllDevicesAt fnm hwdID rest (i + 1) (true, foundDevices ++ [i])
    else
      checkAllDevicesAt fnm hwdID rest (i + 1) (foundDevice, foundDevices)

/-- The outer loop of lines 123-187 as `hwdIDLoop`, on positions. -/
def hwdIDLoopAt (fnm : String → String → Nat → Int) (devices : List Device) :
    List HardwareID → List Nat → List Nat
  | [], foundDevices => foundDevices
  | hwdID :: rest, foundDevices =>
    let state := checkAllDevicesAt fnm hwdID devices 0 (false, foundDevices)
    if !state.1 then []
    else hwdIDLoopAt fnm devices rest state.2

/-- `Data::getAllDevicesOfConfig(devices, config, foundDevices)`: the pointers
left in `foundDevices`, as positions in `devices`. -/
def getAllDevicesOfConfigAt (fnm : String → String → Nat → Int) (devices : List Device)
    (config : Config) : List Nat :=
  hwdIDLoopAt fnm devices config.hwdIDs_ []

/-- A write through the pointer at position `i`: the device there becomes
`f device`, the others stay. -/
def modifyDevice (f : Device → Device) : List Device → Nat → List Device
  | [], _ => []
  | device :: rest, 0 => f device :: rest
  | device :: rest, i + 1 => device :: modifyDevice f rest i

/-- The body of the loop of lines 513-523 for one found device. -/
def addConfigToDevice (config : Config) (setAsInstalled : Bool) (foundDevice : Device) :
    Device :=
  if setAsInstalled then
    { foundDevice with installedConfigs_ := addConfigSorted foundDevice.installedConfigs_ config }
  else
    { foundDevice with availableConfigs_ := addConfigSorted foundDevice.availableConfigs_ config }

/-- `Data::setMatchingConfig(config, devices, setAsInstalled)`: the devices
after the call. -/
def setMatchingConfig (fnm : String → String → Nat → Int) (config : Config)
    (devices : List Device) (setAsInstalled : Bool) : List Device :=
  let foundDevices := getAllDevicesOfConfigAt fnm devices config
  -- Set config to all matching devices
  foundDevices.foldl
    (fun devices foundDevice =>
      modifyDevice (addConfigToDevice config setAsInstalled) devices foundDevice)
    devices

/-- `Data::setMatchingConfigs(devices, configs, setAsInstalled)`: the devices
after the call. -/
def setMatchingConfigs (fnm : String → String → Nat → Int) (devices : List Device)
    (configs : List Config) (setAsInstalled : Bool) : List Device :=
  configs.foldl (fun devices config => setMatchingConfig fnm config devices setAsInstalled)
    devices

/-- Two device records with the same class, vendor and device identifiers:
what `getAllDevicesOfConfig` reads of a device. -/
def SameIDs (a b : Device) : Prop :=
  a.classID_ = b.classID_ ∧ a.vendorID_ = b.vendorID_ ∧ a.deviceID_ = b.deviceID_

instance passesRuleDecidable (fnm : String → String → Nat → Int) (hwdID : HardwareID)
    (device : Device) : Decidable (passesRule fnm hwdID device) := by
  unfold passesRule
  infer_instance

/-! ## Example data -/

/-- A PCI display controller. -/
def gpuDevice : Device :=
  ⟨"PCI", "0300", "10de", "1c82", "Display controller", "nVidia", "GP107", "0000:01:00.0",
    "/devices/pci0000:00/0000:01:00.0", [], []⟩

/-- A PCI network controller. -/
def nicDevice : Device :=
  ⟨"PCI", "0200", "8086", "15b8", "Network controller", "Intel", "I219-V", "0000:00:1f.6",
    "/devices/pci0000:00/0000:00:1f.6", [], []⟩

/-- A rule that every device passes. -/
def ruleAny : HardwareID := ⟨["*"], ["*"], ["*"], [], [], []⟩

/-- A rule for display controllers of vendor `10DE`. -/
def ruleNvidia : HardwareID := ⟨["0300"], ["10DE"], ["*"], [], [], []⟩

/-- A rule whose class whitelist names a class no example device has. -/
def ruleMultimedia : HardwareID := ⟨["04??"], ["*"], ["*"], [], [], []⟩

/-- A rule with an empty class whitelist. -/
def ruleNoClassIDs : HardwareID := ⟨[], ["*"], ["*"], [], [], []⟩

/-- A rule with an empty vendor whitelist. -/
def ruleNoVendorIDs : HardwareID := ⟨["*"], [], ["*"], [], [], []⟩

/-- A rule with an empty device whitelist. -/
def ruleNoDeviceIDs : HardwareID := ⟨["*"], ["*"], [], [], [], []⟩

/-- A PCI config with the given name, priority, rules and dependency names. -/
def pciConfig (name : String) (priority : Int) (hwdIDs : List HardwareID)
    (dependencies : List String) : Config :=
  ⟨"PCI", "/var/lib/mhwd/db/pci/" ++ name ++ "/MHWDCONFIG", name, priority, hwdIDs, [],
    dependencies⟩

/-- Four configs arriving with the priorities 5, 10, 3, 10. -/
def arrivalExample : List Config :=
  [pciConfig "video-first" 5 [ruleAny] [], pciConfig "video-second" 10 [ruleAny] [],
    pciConfig "video-third" 3 [ruleAny] [], pciConfig "video-fourth" 10 [ruleAny] []]

/-- The diamond: A depends on B and C, B and C each depend on D. -/
def diamondA : Config := pciConfig "video-a" 4 [ruleAny] ["video-b", "video-c"]

/-- The left side of the diamond. -/
def diamondB : Config := pciConfig "video-b" 3 [ruleAny] ["video-d"]

/-- The right side of the diamond. -/
def diamondC : Config := pciConfig "video-c" 2 [ruleAny] ["video-d"]

/-- The bottom of the diamond. -/
def diamondD : Config := pciConfig "video-d" 1 [ruleAny] []

/-- The diamond in the PCI catalog, nothing installed. -/
def diamondData : Data :=
  ⟨[gpuDevice, nicDevice], [], [diamondA, diamondB, diamondC, diamondD], [], [], [], []⟩

/-- The diamond in the PCI catalog with B and C installed. -/
def diamondInstalledData : Data :=
  ⟨[gpuDevice, nicDevice], [], [diamondA, diamondB, diamondC, diamondD], [],
    [diamondB, diamondC], [], []⟩

/-- A config that names a dependency absent from the catalog before one that
is present. -/
def networkA : Config := pciConfig "network-a" 2 [ruleAny] ["network-missing", "network-b"]

/-- The dependency of `networkA` that the catalog holds. -/
def networkB : Config := pciConfig "network-b" 1 [ruleAny] []

/-- A PCI catalog without `network-missing`, nothing installed. -/
def networkData : Data :=
  ⟨[gpuDevice, nicDevice], [], [networkA, networkB], [], [], [], []⟩

/-- A config that depends on `cycleB`, which depends on it. -/
def cycleA : Config := pciConfig "video-cycle-a" 2 [ruleAny] ["video-cycle-b"]

/-- A config that depends on `cycleA`, which depends on it. -/
def cycleB : Config := pciConfig "video-cycle-b" 1 [ruleAny] ["video-cycle-a"]

/-- A PCI catalog with the dependency cycle, nothing installed. -/
def cycleData : Data := ⟨[gpuDevice, nicDevice], [], [cycleA, cycleB], [], [], [], []⟩

/-- A PCI config with the given name, dependency names and conflict patterns. -/
def pciConfigWith (name : String) (dependencies conflicts : List String) : Config :=
  ⟨"PCI", "/var/lib/mhwd/db/pci/" ++ name ++ "/MHWDCONFIG", name, 0, [ruleAny], conflicts,
    dependencies⟩

/-- A config that declares one conflict pattern. -/
def nvidiaConfig : Config := pciConfigWith "video-nvidia" [] ["video-nouveau*"]

/-- An installed config whose name the pattern of `nvidiaConfig` matches. -/
def nouveauConfig : Config := pciConfigWith "video-nouveau" [] []

/-- A config without conflict patterns that depends on `nvidiaConfig`. -/
def hybridConfig : Config := pciConfigWith "video-hybrid" ["video-nvidia"] []

/-- The catalog holds `hybridConfig` and its dependency, `nouveauConfig` is the
only installed config. -/
def transitiveData : Data :=
  ⟨[gpuDevice, nicDevice], [], [hybridConfig, nvidiaConfig], [], [nouveauConfig], [], []⟩

/-- A config with two conflict patterns that both match the name `xy`. -/
def globConfig : Config := pciConfigWith "video-glob" [] ["x*", "*y"]

/-- The installed config named `xy`. -/
def xyConfig : Config := pciConfigWith "xy" [] []

/-- The config `xy` is the only installed config. -/
def globData : Data := ⟨[gpuDevice, nicDevice], [], [globConfig], [], [xyConfig], [], []⟩

/-- An installed config that depends on `networkB`. -/
def bridgeConfig : Config := pciConfigWith "network-bridge" ["network-tools", "network-b"] []

/-- The installed configs `networkA` and `bridgeConfig` depend on `networkB`,
`nouveauConfig` does not. -/
def requirementData : Data :=
  ⟨[gpuDevice, nicDevice], [], [networkA, networkB], [],
    [networkA, nouveauConfig, bridgeConfig], [], []⟩

/-- Three configs for the matching pass: one with two rules the display
controller passes, one every device passes, one no device passes. -/
def matchingConfigs : List Config :=
  [pciConfig "video-nvidia" 10 [ruleNvidia, ruleAny] [], pciConfig "video-vesa" 20 [ruleAny] [],
    pciConfig "audio-any" 30 [ruleMultimedia] []]

theorem findIfMatch_iff (fnm : String → String → Nat → Int) (patterns : List String)
    (value : String) :
    findIfMatch fnm patterns value = true ↔ ∃ p ∈ patterns, fnm p value FNM_CASEFOLD = 0 := by
  simp [findIfMatch]

theorem deviceMatches_iff (fnm : String → String → Nat → Int) (hwdID : HardwareID)
    (device : Device) :
    deviceMatches fnm hwdID device = true ↔ passesRule fnm hwdID device := by
  unfold passesRule
  simp only [← findIfMatch_iff]
  unfold deviceMatches
  cases findIfMatch fnm hwdID.classIDs device.classID_ <;>
  cases findIfMatch fnm hwdID.blacklistedClassIDs device.classID_ <;>
  cases findIfMatch fnm hwdID.vendorIDs device.vendorID_ <;>
  cases findIfMatch fnm hwdID.blacklistedVendorIDs device.vendorID_ <;>
  cases findIfMatch fnm hwdID.deviceIDs device.deviceID_ <;>
  cases findIfMatch fnm hwdID.blacklistedDeviceIDs device.deviceID_ <;>
  simp

theorem checkAllDevices_eq (fnm : String → String → Nat → Int) (hwdID : HardwareID)
    (devices : List Device) (foundDevice : Bool) (foundDevices : List Device) :
    checkAllDevices fnm hwdID devices (foundDevice, foundDevices) =
      (foundDevice || devices.any (deviceMatches fnm hwdID),
        foundDevices ++ devices.filter (deviceMatches fnm hwdID)) := by
  induction devices generalizing foundDevice foundDevices with
  | nil => simp [checkAllDevices]
  | cons d ds ih =>
    unfold checkAllDevices
    by_cases hd : deviceMatches fnm hwdID d = true
    · simp [hd, ih]
    · simp [hd, ih]

theorem hwdIDLoop_cons (fnm : String → String → Nat → Int) (devices : List Device)
    (hwdID : HardwareID) (rest : List HardwareID) (foundDevices : List Device) :
    hwdIDLoop fnm devices (hwdID :: rest) foundDevices =
      if devices.any (deviceMatches fnm hwdID) then
        hwdIDLoop fnm devices rest (foundDevices ++ devices.filter (deviceMatches fnm hwdID))
      else [] := by
  simp only [hwdIDLoop, checkAllDevices_eq, Bool.false_or]
  cases devices.any (deviceMatches fnm hwdID) <;> simp

theorem hwdIDLoop_unmatched (fnm : String → String → Nat → Int) (devices : List Device)
    (hwdIDs : List HardwareID) (foundDevices : List Device)
    (h : ∃ hwdID ∈ hwdIDs, devices.any (deviceMatches fnm hwdID) = false) :
    hwdIDLoop fnm devices hwdIDs foundDevices = [] := by
  induction hwdIDs generalizing foundDevices with
  | nil => simp at h
  | cons r rs ih =>
    rw [hwdIDLoop_cons]
    by_cases hr : devices.any (deviceMatches fnm r) = true
    · rw [if_pos hr]
      apply ih
      obtain ⟨x, hx, hxf⟩ := h
      rcases List.mem_cons.1 hx with rfl | hx
      · rw [hr] at hxf; cases hxf
      · exact ⟨x, hx, hxf⟩
    · rw [if_neg hr]

theorem mem_hwdIDLoop (fnm : String → String → Nat → Int) (devices : List Device)
    (hwdIDs : List HardwareID) (foundDevices : List Device)
    (hall : ∀ hwdID ∈ hwdIDs, devices.any (deviceMatches fnm hwdID) = true) (device : Device) :
    device ∈ hwdIDLoop fnm devices hwdIDs foundDevices ↔
      device ∈ foundDevices ∨
        (device ∈ devices ∧ ∃ hwdID ∈ hwdIDs, deviceMatches fnm hwdID device = true) := by
  induction hwdIDs generalizing foundDevices with
  | nil => simp [hwdIDLoop]
  | cons r rs ih =>
    rw [hwdIDLoop_cons, if_pos (hall r (List.mem_cons_self _ _)),
      ih _ (fun x hx => hall x (List.mem_cons_of_mem _ hx))]
    simp only [List.mem_append, List.mem_filter, List.mem_cons, exists_eq_or_imp]
    tauto

theorem count_hwdIDLoop (fnm : String → String → Nat → Int) (devices : List Device)
    (hwdIDs : List HardwareID) (foundDevices : List Device)
    (hall : ∀ hwdID ∈ hwdIDs, devices.any (deviceMatches fnm hwdID) = true)
    (hnd : devices.Nodup) (device : Device) (hmem : device ∈ devices) :
    (hwdIDLoop fnm devices hwdIDs foundDevices).count device =
      foundDevices.count device +
        hwdIDs.countP (fun hwdID => deviceMatches fnm hwdID device) := by
  induction hwdIDs generalizing foundDevices with
  | nil => simp [hwdIDLoop]
  | cons r rs ih =>
    rw [hwdIDLoop_cons, if_pos (hall r (List.mem_cons_self _ _)),
      ih _ (fun x hx => hall x (List.mem_cons_of_mem _ hx)), List.count_append,
      List.countP_cons]
    have hc : (devices.filter (deviceMatches fnm r)).count device =
        if deviceMatches fnm r device = true then 1 else 0 := by
      by_cases hd : deviceMatches fnm r device = true
      · rw [if_pos hd]
        exact List.count_eq_one_of_mem (hnd.filter _) (List.mem_filter.2 ⟨hmem, hd⟩)
      · rw [if_neg hd]
        exact List.count_eq_zero_of_not_mem (fun hm => hd (List.mem_filter.1 hm).2)
    rw [hc]
    omega

theorem any_deviceMatches_iff (fnm : String → String → Nat → Int) (devices : List Device)
    (hwdID : HardwareID) :
    devices.any (deviceMatches fnm hwdID) = true ↔ ∃ d ∈ devices, passesRule fnm hwdID d := by
  simp [List.any_eq_true, deviceMatches_iff]

theorem getAllDevicesOfConfig_eq_nil (fnm : String → String → Nat → Int)
    (devices : List Device) (config : Config)
    (h : ∃ hwdID ∈ config.hwdIDs_, ∀ d ∈ devices, ¬ passesRule fnm hwdID d) :
    getAllDevicesOfConfig fnm devices config = [] := by
  apply hwdIDLoop_unmatched
  obtain ⟨hwdID, hmem, hno⟩ := h
  refine ⟨hwdID, hmem, ?_⟩
  rw [Bool.eq_false_iff, Ne, any_deviceMatches_iff]
  rintro ⟨d, hd, hp⟩
  exact hno d hd hp

/-- C1: all-or-nothing binding.  If some rule of the config is passed by no
device of the list, `getAllDevicesOfConfig` returns the empty list, whatever
the other rules match. -/
theorem getAllDevicesOfConfig_all_or_nothing (fnm : String → String → Nat → Int)
    (devices : List Device) (config : Config)
    (h : ∃ hwdID ∈ config.hwdIDs_, ∀ d ∈ devices, ¬ passesRule fnm hwdID d) :
    getAllDevicesOfConfig fnm devices config = [] :=
  getAllDevicesOfConfig_eq_nil fnm devices config h

/-- A two-rule config whose first rule is passed by both devices and whose
second rule is passed by none binds to nothing. -/
theorem getAllDevicesOfConfig_all_or_nothing_witness :
    passesRule fnmatch ruleNvidia gpuDevice ∧
    (∃ hwdID ∈ (pciConfig "video-nvidia" 10 [ruleNvidia, ruleMultimedia] []).hwdIDs_,
      ∀ d ∈ [gpuDevice, nicDevice], ¬ passesRule fnmatch hwdID d) ∧
    getAllDevicesOfConfig fnmatch [gpuDevice, nicDevice]
      (pciConfig "video-nvidia" 10 [ruleNvidia, ruleMultimedia] []) = [] :=
  ⟨by decide, by decide,
    getAllDevicesOfConfig_all_or_nothing fnmatch [gpuDevice, nicDevice]
      (pciConfig "video-nvidia" 10 [ruleNvidia, ruleMultimedia] []) (by decide)⟩

/-- C2: membership of the binder result.  When every rule of the config is
passed by at least one device of the list, a device is in the result of
`getAllDevicesOfConfig` exactly when it is a device of the list that passes at
least one rule, where passing is the six-part condition `passesRule`. -/
theorem mem_getAllDevicesOfConfig_iff (fnm : String → String → Nat → Int)
    (devices : List Device) (config : Config)
    (hall : ∀ hwdID ∈ config.hwdIDs_, ∃ d ∈ devices, passesRule fnm hwdID d)
    (device : Device) :
    device ∈ getAllDevicesOfConfig fnm devices config ↔
      device ∈ devices ∧ ∃ hwdID ∈ config.hwdIDs_, passesRule fnm hwdID device := by
  unfold getAllDevicesOfConfig
  rw [mem_hwdIDLoop fnm devices config.hwdIDs_ []
    (fun x hx => (any_deviceMatches_iff fnm devices x).2 (hall x hx))]
  simp [deviceMatches_iff]

/-- With the rules `ruleNvidia` and `ruleAny`, both matched, the network
controller is bound although it passes only the second rule. -/
theorem mem_getAllDevicesOfConfig_iff_witness :
    (∀ hwdID ∈ (pciConfig "video-nvidia" 10 [ruleNvidia, ruleAny] []).hwdIDs_,
      ∃ d ∈ [gpuDevice, nicDevice], passesRule fnmatch hwdID d) ∧
    (nicDevice ∈ getAllDevicesOfConfig fnmatch [gpuDevice, nicDevice]
        (pciConfig "video-nvidia" 10 [ruleNvidia, ruleAny] []) ↔
      nicDevice ∈ [gpuDevice, nicDevice] ∧
        ∃ hwdID ∈ (pciConfig "video-nvidia" 10 [ruleNvidia, ruleAny] []).hwdIDs_,
          passesRule fnmatch hwdID nicDevice) :=
  ⟨by decide,
    mem_getAllDevicesOfConfig_iff fnmatch [gpuDevice, nicDevice]
      (pciConfig "video-nvidia" 10 [ruleNvidia, ruleAny] []) (by decide) nicDevice⟩

/-- The claim C3 fails on the code: each of three rules has one empty
whitelist and the display controller satisfies its five other stages, yet the
single-rule config binds to no device. -/
theorem empty_whitelist_counterexample :
    (ruleNoClassIDs.classIDs = [] ∧
      findIfMatch fnmatch ruleNoClassIDs.blacklistedClassIDs gpuDevice.classID_ = false ∧
      findIfMatch fnmatch ruleNoClassIDs.vendorIDs gpuDevice.vendorID_ = true ∧
      findIfMatch fnmatch ruleNoClassIDs.blacklistedVendorIDs gpuDevice.vendorID_ = false ∧
      findIfMatch fnmatch ruleNoClassIDs.deviceIDs gpuDevice.deviceID_ = true ∧
      findIfMatch fnmatch ruleNoClassIDs.blacklistedDeviceIDs gpuDevice.deviceID_ = false ∧
      getAllDevicesOfConfig fnmatch [gpuDevice] (pciConfig "video-any" 1 [ruleNoClassIDs] [])
        = []) ∧
    (ruleNoVendorIDs.vendorIDs = [] ∧
      findIfMatch fnmatch ruleNoVendorIDs.classIDs gpuDevice.classID_ = true ∧
      findIfMatch fnmatch ruleNoVendorIDs.blacklistedClassIDs gpuDevice.classID_ = false ∧
      findIfMatch fnmatch ruleNoVendorIDs.blacklistedVendorIDs gpuDevice.vendorID_ = false ∧
      findIfMatch fnmatch ruleNoVendorIDs.deviceIDs gpuDevice.deviceID_ = true ∧
      findIfMatch fnmatch ruleNoVendorIDs.blacklistedDeviceIDs gpuDevice.deviceID_ = false ∧
      getAllDevicesOfConfig fnmatch [gpuDevice] (pciConfig "video-any" 1 [ruleNoVendorIDs] [])
        = []) ∧
    (ruleNoDeviceIDs.deviceIDs = [] ∧
      findIfMatch fnmatch ruleNoDeviceIDs.classIDs gpuDevice.classID_ = true ∧
      findIfMatch fnmatch ruleNoDeviceIDs.blacklistedClassIDs gpuDevice.classID_ = false ∧
      findIfMatch fnmatch ruleNoDeviceIDs.vendorIDs gpuDevice.vendorID_ = true ∧
      findIfMatch fnmatch ruleNoDeviceIDs.blacklistedVendorIDs gpuDevice.vendorID_ = false ∧
      findIfMatch fnmatch ruleNoDeviceIDs.blacklistedDeviceIDs gpuDevice.deviceID_ = false ∧
      getAllDevicesOfConfig fnmatch [gpuDevice] (pciConfig "video-any" 1 [ruleNoDeviceIDs] [])
        = []) := by
  decide

/-- C3 (amended): an empty whitelist matches nothing.  For every rule whose
class, vendor or device whitelist is empty, no device reaches line 172 for
that rule, and a config whose only rule it is binds to no device of any list. -/
theorem empty_whitelist_matches_nothing (fnm : String → String → Nat → Int)
    (hwdID : HardwareID)
    (h : hwdID.classIDs = [] ∨ hwdID.vendorIDs = [] ∨ hwdID.deviceIDs = [])
    (devices : List Device) (config : Config) (hc : config.hwdIDs_ = [hwdID]) :
    (∀ device : Device, deviceMatches fnm hwdID device = false ∧
      ¬ passesRule fnm hwdID device) ∧
    getAllDevicesOfConfig fnm devices config = [] := by
  have hno : ∀ device : Device, ¬ passesRule fnm hwdID device := by
    intro device hp
    obtain ⟨⟨⟨p, hp1, _⟩, _⟩, ⟨⟨q, hq1, _⟩, _⟩, ⟨⟨r, hr1, _⟩, _⟩⟩ := hp
    rcases h with h | h | h
    · rw [h] at hp1; cases hp1
    · rw [h] at hq1; cases hq1
    · rw [h] at hr1; cases hr1
  refine ⟨fun device => ⟨?_, hno device⟩, ?_⟩
  · rw [Bool.eq_false_iff, Ne, deviceMatches_iff]
    exact hno device
  · exact getAllDevicesOfConfig_eq_nil fnm devices config
      ⟨hwdID, by simp [hc], fun d _ => hno d⟩

/-- The rule `ruleNoClassIDs` passes no device and binds to none. -/
theorem empty_whitelist_matches_nothing_witness :
    (ruleNoClassIDs.classIDs = [] ∨ ruleNoClassIDs.vendorIDs = [] ∨
      ruleNoClassIDs.deviceIDs = []) ∧
    (pciConfig "video-any" 1 [ruleNoClassIDs] []).hwdIDs_ = [ruleNoClassIDs] ∧
    ((∀ device : Device, deviceMatches fnmatch ruleNoClassIDs device = false ∧
      ¬ passesRule fnmatch ruleNoClassIDs device) ∧
    getAllDevicesOfConfig fnmatch [gpuDevice, nicDevice]
      (pciConfig "video-any" 1 [ruleNoClassIDs] []) = []) :=
  ⟨Or.inl rfl, rfl,
    empty_whitelist_matches_nothing fnmatch ruleNoClassIDs (Or.inl rfl)
      [gpuDevice, nicDevice] (pciConfig "video-any" 1 [ruleNoClassIDs] []) rfl⟩

/-- The claim C4 fails on the code: the device list has one device, both rules
of the config are passed by it, and the result holds it twice. -/
theorem dedup_counterexample :
    [gpuDevice].Nodup ∧
    getAllDevicesOfConfig fnmatch [gpuDevice]
      (pciConfig "video-nvidia" 10 [ruleNvidia, ruleAny] []) = [gpuDevice, gpuDevice] ∧
    (getAllDevicesOfConfig fnmatch [gpuDevice]
      (pciConfig "video-nvidia" 10 [ruleNvidia, ruleAny] [])).count gpuDevice = 2 := by
  decide

/-- C4 (amended): the binder result holds a device once per rule it passes.
For pairwise distinct devices, a device occurs in the result of
`getAllDevicesOfConfig` at most as often as the config has rules that it
passes, and exactly that often when it is a device of the list and every rule
is passed by some device of the list. -/
theorem count_getAllDevicesOfConfig (fnm : String → String → Nat → Int)
    (devices : List Device) (config : Config) (hnd : devices.Nodup) (device : Device) :
    (getAllDevicesOfConfig fnm devices config).count device ≤
        config.hwdIDs_.countP (fun hwdID => deviceMatches fnm hwdID device) ∧
    (device ∈ devices →
      (∀ hwdID ∈ config.hwdIDs_, ∃ d ∈ devices, passesRule fnm hwdID d) →
      (getAllDevicesOfConfig fnm devices config).count device =
        config.hwdIDs_.countP (fun hwdID => deviceMatches fnm hwdID device)) := by
  have heq : device ∈ devices →
      (∀ hwdID ∈ config.hwdIDs_, devices.any (deviceMatches fnm hwdID) = true) →
      (getAllDevicesOfConfig fnm devices config).count device =
        config.hwdIDs_.countP (fun hwdID => deviceMatches fnm hwdID device) := by
    intro hmem hall
    unfold getAllDevicesOfConfig
    rw [count_hwdIDLoop fnm devices config.hwdIDs_ [] hall hnd device hmem]
    simp
  constructor
  · by_cases hall : ∀ hwdID ∈ config.hwdIDs_, devices.any (deviceMatches fnm hwdID) = true
    · by_cases hmem : device ∈ devices
      · exact le_of_eq (heq hmem hall)
      · have hnm : device ∉ getAllDevicesOfConfig fnm devices config := by
          unfold getAllDevicesOfConfig
          rw [mem_hwdIDLoop fnm devices config.hwdIDs_ [] hall]
          simp [hmem]
        rw [List.count_eq_zero_of_not_mem hnm]
        exact Nat.zero_le _
    · have hnil : getAllDevicesOfConfig fnm devices config = [] := by
        apply hwdIDLoop_unmatched
        push_neg at hall
        obtain ⟨x, hx, hxf⟩ := hall
        exact ⟨x, hx, by simpa using hxf⟩
      rw [hnil]
      exact Nat.zero_le _
  · intro hmem hall
    exact heq hmem (fun x hx => (any_deviceMatches_iff fnm devices x).2 (hall x hx))

/-- With two distinct devices and the rules `ruleNvidia` and `ruleAny`, the
display controller passes both rules, so it may occur twice (and does). -/
theorem count_getAllDevicesOfConfig_witness :
    [gpuDevice, nicDevice].Nodup ∧
    ((getAllDevicesOfConfig fnmatch [gpuDevice, nicDevice]
        (pciConfig "video-nvidia" 10 [ruleNvidia, ruleAny] [])).count gpuDevice ≤
      (pciConfig "video-nvidia" 10 [ruleNvidia, ruleAny] []).hwdIDs_.countP
        (fun hwdID => deviceMatches fnmatch hwdID gpuDevice) ∧
    (gpuDevice ∈ [gpuDevice, nicDevice] →
      (∀ hwdID ∈ (pciConfig "video-nvidia" 10 [ruleNvidia, ruleAny] []).hwdIDs_,
        ∃ d ∈ [gpuDevice, nicDevice], passesRule fnmatch hwdID d) →
      (getAllDevicesOfConfig fnmatch [gpuDevice, nicDevice]
        (pciConfig "video-nvidia" 10 [ruleNvidia, ruleAny] [])).count gpuDevice =
      (pciConfig "video-nvidia" 10 [ruleNvidia, ruleAny] []).hwdIDs_.countP
        (fun hwdID => deviceMatches fnmatch hwdID gpuDevice))) :=
  ⟨by decide,
    count_getAllDevicesOfConfig fnmatch [gpuDevice, nicDevice]
      (pciConfig "video-nvidia" 10 [ruleNvidia, ruleAny] []) (by decide) gpuDevice⟩

/-! ## Theorems: priority insertion -/

theorem insertByPriority_perm (c : Config) (l : List Config) :
    (insertByPriority c l).Perm (c :: l) := by
  induction l with
  | nil => simp [insertByPriority]
  | cons x xs ih =>
    unfold insertByPriority
    split
    · exact List.Perm.refl _
    · exact (List.Perm.cons x ih).trans (List.Perm.swap c x xs)

theorem insertByPriority_sorted (c : Config) (l : List Config)
    (hs : l.Pairwise (fun a b => a.priority_ ≥ b.priority_)) :
    (insertByPriority c l).Pairwise (fun a b => a.priority_ ≥ b.priority_) := by
  induction l with
  | nil => simp [insertByPriority]
  | cons x xs ih =>
    unfold insertByPriority
    have hx := List.pairwise_cons.1 hs
    split
    · rename_i hgt
      refine List.pairwise_cons.2 ⟨?_, hs⟩
      intro b hb
      rcases List.mem_cons.1 hb with rfl | hb
      · exact le_of_lt hgt
      · exact le_trans (hx.1 b hb) (le_of_lt hgt)
    · rename_i hgt
      refine List.pairwise_cons.2 ⟨?_, ih hx.2⟩
      intro b hb
      rcases List.mem_cons.1 ((insertByPriority_perm c xs).subset hb) with rfl | hb
      · exact not_lt.1 hgt
      · exact hx.1 b hb

theorem insertByPriority_filter (c : Config) (l : List Config)
    (hs : l.Pairwise (fun a b => a.priority_ ≥ b.priority_)) (p : Int) :
    (insertByPriority c l).filter (fun x => x.priority_ == p) =
      l.filter (fun x => x.priority_ == p) ++ [c].filter (fun x => x.priority_ == p) := by
  induction l with
  | nil => simp [insertByPriority]
  | cons x xs ih =>
    unfold insertByPriority
    have hx := List.pairwise_cons.1 hs
    split
    · rename_i hgt
      by_cases hcp : c.priority_ = p
      · have hnone : (x :: xs).filter (fun y => y.priority_ == p) = [] := by
          rw [List.filter_eq_nil_iff]
          intro y hy
          have hle : y.priority_ ≤ x.priority_ := by
            rcases List.mem_cons.1 hy with rfl | hy
            · exact le_refl _
            · exact hx.1 y hy
          simp only [beq_iff_eq]
          omega
        rw [List.filter_cons_of_pos (by simpa using hcp), hnone]
        simp [hcp]
      · rw [List.filter_cons_of_neg (by simpa using hcp)]
        simp [hcp]
    · by_cases hxp : x.priority_ = p
      · rw [List.filter_cons_of_pos (by simpa using hxp),
          List.filter_cons_of_pos (by simpa using hxp), ih hx.2]
        simp
      · rw [List.filter_cons_of_neg (by simpa using hxp),
          List.filter_cons_of_neg (by simpa using hxp), ih hx.2]

theorem addConfigSorted_of_new (configs : List Config) (newConfig : Config)
    (h : newConfig.name_ ∉ configs.map (fun c => c.name_)) :
    addConfigSorted configs newConfig = insertByPriority newConfig configs := by
  unfold addConfigSorted
  have hf : configs.any (fun config => newConfig.name_ == config.name_) = false := by
    rw [Bool.eq_false_iff, Ne, List.any_eq_true]
    rintro ⟨x, hx, hxe⟩
    have hxn : newConfig.name_ = x.name_ := by simpa using hxe
    exact h (List.mem_map.2 ⟨x, hx, hxn.symm⟩)
  simp [hf]

theorem addConfigSorted_of_present (configs : List Config) (newConfig : Config)
    (h : ∃ c ∈ configs, c.name_ = newConfig.name_) :
    addConfigSorted configs newConfig = configs := by
  unfold addConfigSorted
  have hf : configs.any (fun config => newConfig.name_ == config.name_) = true := by
    rw [List.any_eq_true]
    obtain ⟨x, hx, hxe⟩ := h
    exact ⟨x, hx, by simpa using hxe.symm⟩
  simp [hf]

theorem foldl_addConfigSorted (arrivals acc : List Config)
    (hnames : ((acc ++ arrivals).map (fun c => c.name_)).Nodup)
    (hs : acc.Pairwise (fun a b => a.priority_ ≥ b.priority_)) :
    (arrivals.foldl addConfigSorted acc).Perm (acc ++ arrivals) ∧
    (arrivals.foldl addConfigSorted acc).Pairwise (fun a b => a.priority_ ≥ b.priority_) ∧
    ∀ p : Int, (arrivals.foldl addConfigSorted acc).filter (fun c => c.priority_ == p) =
      acc.filter (fun c => c.priority_ == p) ++ arrivals.filter (fun c => c.priority_ == p) := by
  induction arrivals generalizing acc with
  | nil => simpa using hs
  | cons c cs ih =>
    have hnew : c.name_ ∉ acc.map (fun c => c.name_) := by
      intro hmem
      rw [List.map_append, List.map_cons] at hnames
      exact (List.nodup_append.1 hnames).2.2 hmem (List.mem_cons_self _ _)
    have hperm : (insertByPriority c acc ++ cs).Perm (acc ++ c :: cs) :=
      ((insertByPriority_perm c acc).append_right cs).trans
        (List.perm_middle.symm)
    have hnames2 : ((insertByPriority c acc ++ cs).map (fun c => c.name_)).Nodup :=
      ((hperm.map _).nodup_iff).2 hnames
    rw [List.foldl_cons, addConfigSorted_of_new acc c hnew]
    obtain ⟨h1, h2, h3⟩ := ih (insertByPriority c acc) hnames2 (insertByPriority_sorted c acc hs)
    refine ⟨h1.trans hperm, h2, ?_⟩
    intro p
    rw [h3 p, insertByPriority_filter c acc hs p, List.append_assoc, ← List.filter_append]
    rfl

theorem stable_sorted_unique (l₁ l₂ : List Config)
    (h₁ : l₁.Pairwise (fun a b => a.priority_ ≥ b.priority_))
    (h₂ : l₂.Pairwise (fun a b => a.priority_ ≥ b.priority_))
    (hf : ∀ p : Int, l₁.filter (fun c => c.priority_ == p) =
      l₂.filter (fun c => c.priority_ == p)) : l₁ = l₂ := by
  induction l₁ generalizing l₂ with
  | nil =>
    cases l₂ with
    | nil => rfl
    | cons b t =>
      have := hf b.priority_
      simp at this
  | cons a t ih =>
    cases l₂ with
    | nil =>
      have := hf a.priority_
      simp at this
    | cons b u =>
      have ha := List.pairwise_cons.1 h₁
      have hb := List.pairwise_cons.1 h₂
      have hab : a.priority_ = b.priority_ := by
        have h1 : a ∈ (b :: u).filter (fun c => c.priority_ == a.priority_) := by
          rw [← hf a.priority_]; simp
        have h2 : b ∈ (a :: t).filter (fun c => c.priority_ == b.priority_) := by
          rw [hf b.priority_]; simp
        have h1m := (List.mem_filter.1 h1).1
        have h2m := (List.mem_filter.1 h2).1
        have le1 : a.priority_ ≤ b.priority_ := by
          rcases List.mem_cons.1 h1m with h | h
          · rw [h]
          · exact hb.1 a h
        have le2 : b.priority_ ≤ a.priority_ := by
          rcases List.mem_cons.1 h2m with h | h
          · rw [h]
          · exact ha.1 b h
        omega
      have hhead := hf a.priority_
      rw [List.filter_cons_of_pos (by simp),
        List.filter_cons_of_pos (by simpa using hab.symm)] at hhead
      have hEq : a = b := (List.cons.inj hhead).1
      subst hEq
      congr 1
      apply ih u ha.2 hb.2
      intro p
      have hp := hf p
      by_cases hap : a.priority_ = p
      · rw [List.filter_cons_of_pos (by simpa using hap),
          List.filter_cons_of_pos (by simpa using hap)] at hp
        exact (List.cons.inj hp).2
      · rw [List.filter_cons_of_neg (by simpa using hap),
          List.filter_cons_of_neg (by simpa using hap)] at hp
        exact hp

theorem mergeSort_isStableDescendingSort (arrivals : List Config) :
    IsStableDescendingSort arrivals
      (arrivals.mergeSort (fun a b => decide (a.priority_ ≥ b.priority_))) := by
  have htrans : ∀ a b c : Config, decide (a.priority_ ≥ b.priority_) = true →
      decide (b.priority_ ≥ c.priority_) = true → decide (a.priority_ ≥ c.priority_) = true := by
    intro a b c hab hbc
    simp only [decide_eq_true_eq] at *
    omega
  have htotal : ∀ a b : Config,
      (decide (a.priority_ ≥ b.priority_) || decide (b.priority_ ≥ a.priority_)) = true := by
    intro a b
    simp only [Bool.or_eq_true, decide_eq_true_eq]
    omega
  have hperm := List.mergeSort_perm arrivals (fun a b => decide (a.priority_ ≥ b.priority_))
  refine ⟨hperm, ?_, ?_⟩
  · have hsorted := List.sorted_mergeSort htrans htotal arrivals
    exact hsorted.imp (fun h => by simpa using h)
  · intro p
    have hpw : (arrivals.filter (fun c => c.priority_ == p)).Pairwise
        (fun a b => decide (a.priority_ ≥ b.priority_) = true) := by
      rw [List.pairwise_iff_forall_sublist]
      intro a b hab
      have ha := (List.mem_filter.1 (hab.subset (List.mem_cons_self _ _))).2
      have hb := (List.mem_filter.1
        (hab.subset (List.mem_cons_of_mem _ (List.mem_cons_self _ _)))).2
      simp only [beq_iff_eq] at ha hb
      simp [ha, hb]
    have hsub := List.sublist_mergeSort htrans htotal hpw (List.filter_sublist arrivals)
    have hsub2 := hsub.filter (fun c => c.priority_ == p)
    rw [List.filter_filter] at hsub2
    simp only [Bool.and_self] at hsub2
    have hlen := (hperm.filter (fun c => c.priority_ == p)).length_eq
    exact (hsub2.eq_of_length hlen.symm).symm

/-- C5: priority insertion is a stable descending sort.  For configs with
pairwise distinct names, inserting them one by one with `addConfigSorted` into
an empty list gives a stable sort of the arrival sequence by descending
priority, the only one there is, which is also what the library merge sort
(a stable sort) returns for the order `priority ≥`. -/
theorem addAllSorted_stable_sort (arrivals : List Config)
    (hnames : (arrivals.map (fun c => c.name_)).Nodup) :
    IsStableDescendingSort arrivals (addAllSorted arrivals) ∧
    (∀ sorted : List Config, IsStableDescendingSort arrivals sorted →
      sorted = addAllSorted arrivals) ∧
    addAllSorted arrivals =
      arrivals.mergeSort (fun a b => decide (a.priority_ ≥ b.priority_)) := by
  obtain ⟨h1, h2, h3⟩ := foldl_addConfigSorted arrivals [] (by simpa using hnames)
    List.Pairwise.nil
  have huniq : ∀ sorted : List Config, IsStableDescendingSort arrivals sorted →
      sorted = addAllSorted arrivals := by
    intro sorted hsorted
    apply stable_sorted_unique sorted (addAllSorted arrivals) hsorted.2.1 h2
    intro p
    rw [hsorted.2.2 p]
    exact (by simpa using h3 p : _ = _).symm
  refine ⟨⟨by simpa using h1, h2, fun p => by simpa using h3 p⟩, huniq, ?_⟩
  exact (huniq _ (mergeSort_isStableDescendingSort arrivals)).symm

/-- Priorities 5, 10, 3, 10 in arrival order give the first 10, the second 10,
the 5, the 3. -/
theorem addAllSorted_stable_sort_witness :
    (arrivalExample.map (fun c => c.name_)).Nodup ∧
    (IsStableDescendingSort arrivalExample (addAllSorted arrivalExample) ∧
      (∀ sorted : List Config, IsStableDescendingSort arrivalExample sorted →
        sorted = addAllSorted arrivalExample) ∧
      addAllSorted arrivalExample =
        arrivalExample.mergeSort (fun a b => decide (a.priority_ ≥ b.priority_))) ∧
    (addAllSorted arrivalExample).map (fun c => (c.name_, c.priority_)) =
      [("video-second", 10), ("video-fourth", 10), ("video-first", 5), ("video-third", 3)] :=
  ⟨by decide, addAllSorted_stable_sort arrivalExample (by decide), by decide⟩

/-- C6: duplicate insertion is a no-op.  If the list already holds a config of
the new config's name, `addConfigSorted` returns the list unchanged, whatever
the priority of the new config. -/
theorem addConfigSorted_duplicate (configs : List Config) (newConfig : Config)
    (h : ∃ config ∈ configs, config.name_ = newConfig.name_) :
    addConfigSorted configs newConfig = configs :=
  addConfigSorted_of_present configs newConfig h

/-- A config named as an entry of the sorted example list leaves the list as
it is, although its priority 99 is above every entry. -/
theorem addConfigSorted_duplicate_witness :
    (∃ config ∈ addAllSorted arrivalExample,
      config.name_ = (pciConfig "video-first" 99 [ruleNvidia] ["video-second"]).name_) ∧
    addConfigSorted (addAllSorted arrivalExample)
        (pciConfig "video-first" 99 [ruleNvidia] ["video-second"]) =
      addAllSorted arrivalExample :=
  ⟨by decide,
    addConfigSorted_duplicate (addAllSorted arrivalExample)
      (pciConfig "video-first" 99 [ruleNvidia] ["video-second"]) (by decide)⟩

/-! ## Theorems: dependency resolution -/

theorem getDatabaseConfig_some (data : Data) (configName configType : String) (dc : Config)
    (h : getDatabaseConfig data configName configType = some dc) :
    dc.name_ = configName ∧ dc ∈ catalogOfType data configType ∧
      dc ∈ data.allPCIConfigs ++ data.allUSBConfigs := by
  unfold getDatabaseConfig at h
  have h1 := List.find?_some h
  have h2 : dc ∈ catalogOfType data configType := List.mem_of_find?_eq_some h
  have h3 : configName = dc.name_ := by simpa using h1
  refine ⟨h3.symm, h2, ?_⟩
  unfold catalogOfType at h2
  split at h2
  · exact List.mem_append_right _ h2
  · exact List.mem_append_left _ h2

theorem dependencyLoop_nil (data : Data)
    (recurse : Config → List Config → Option (List Config)) (type_ : String)
    (installedConfigs dependencies : List Config) :
    dependencyLoop data recurse type_ installedConfigs [] dependencies = some dependencies := rfl

theorem dependencyLoop_skip_installed (data : Data)
    (recurse : Config → List Config → Option (List Config)) (type_ : String)
    (installedConfigs : List Config) (dep : String) (rest : List String)
    (dependencies : List Config)
    (h : installedConfigs.any (fun config => config.name_ == dep) = true) :
    dependencyLoop data recurse type_ installedConfigs (dep :: rest) dependencies =
      dependencyLoop data recurse type_ installedConfigs rest dependencies := by
  rw [dependencyLoop]
  simp [h]

theorem dependencyLoop_skip_present (data : Data)
    (recurse : Config → List Config → Option (List Config)) (type_ : String)
    (installedConfigs : List Config) (dep : String) (rest : List String)
    (dependencies : List Config)
    (h : dependencies.any (fun config => config.name_ == dep) = true) :
    dependencyLoop data recurse type_ installedConfigs (dep :: rest) dependencies =
      dependencyLoop data recurse type_ installedConfigs rest dependencies := by
  rw [dependencyLoop]
  simp [h]

theorem dependencyLoop_skip_missing (data : Data)
    (recurse : Config → List Config → Option (List Config)) (type_ : String)
    (installedConfigs : List Config) (dep : String) (rest : List String)
    (dependencies : List Config)
    (h : getDatabaseConfig data dep type_ = none) :
    dependencyLoop data recurse type_ installedConfigs (dep :: rest) dependencies =
      dependencyLoop data recurse type_ installedConfigs rest dependencies := by
  rw [dependencyLoop]
  simp [h]

theorem dependencyLoop_expand (data : Data)
    (recurse : Config → List Config → Option (List Config)) (type_ : String)
    (installedConfigs : List Config) (dep : String) (rest : List String)
    (dependencies : List Config) (dc : Config)
    (h1 : installedConfigs.any (fun config => config.name_ == dep) = false)
    (h2 : dependencies.any (fun config => config.name_ == dep) = false)
    (h3 : getDatabaseConfig data dep type_ = some dc) :
    dependencyLoop data recurse type_ installedConfigs (dep :: rest) dependencies =
      (recurse dc (dependencies ++ [dc])).bind
        (dependencyLoop data recurse type_ installedConfigs rest) := by
  rw [dependencyLoop]
  simp only [h1, h2, h3, Bool.not_false, if_true]
  cases recurse dc (dependencies ++ [dc]) <;> rfl

theorem resolverInv_append (data : Data) (Q : Config → Prop)
    (installedConfigs dependencies : List Config) (dep : String) (type_ : String) (dc : Config)
    (hinv : ResolverInv data Q installedConfigs dependencies)
    (h1 : installedConfigs.any (fun config => config.name_ == dep) = false)
    (h2 : dependencies.any (fun config => config.name_ == dep) = false)
    (h3 : getDatabaseConfig data dep type_ = some dc) (hq : Q dc) :
    ResolverInv data Q installedConfigs (dependencies ++ [dc]) := by
  obtain ⟨hname, _, hall⟩ := getDatabaseConfig_some data dep type_ dc h3
  obtain ⟨i1, i2, i3, i4⟩ := hinv
  have h1n : ∀ i ∈ installedConfigs, i.name_ ≠ dep := by
    intro i hi he
    have : installedConfigs.any (fun config => config.name_ == dep) = true :=
      List.any_eq_true.2 ⟨i, hi, by simpa using he⟩
    rw [h1] at this; cases this
  have h2n : ∀ c ∈ dependencies, c.name_ ≠ dep := by
    intro c hc he
    have : dependencies.any (fun config => config.name_ == dep) = true :=
      List.any_eq_true.2 ⟨c, hc, by simpa using he⟩
    rw [h2] at this; cases this
  refine ⟨?_, ?_, ?_, ?_⟩
  · rw [List.map_append, List.nodup_append]
    refine ⟨i1, by simp, ?_⟩
    intro a ha hb
    simp only [List.map_cons, List.map_nil, List.mem_singleton] at hb
    obtain ⟨c, hc, hce⟩ := List.mem_map.1 ha
    exact h2n c hc (by rw [hce, hb, hname])
  · intro c hc i hi
    rcases List.mem_append.1 hc with hc | hc
    · exact i2 c hc i hi
    · rw [List.mem_singleton.1 hc, hname]
      exact h1n i hi
  · intro c hc
    rcases List.mem_append.1 hc with hc | hc
    · exact i3 c hc
    · rw [List.mem_singleton.1 hc]; exact hall
  · intro c hc
    rcases List.mem_append.1 hc with hc | hc
    · exact i4 c hc
    · rw [List.mem_singleton.1 hc]; exact hq

theorem dependencyLoop_inv (data : Data) (Q : Config → Prop)
    (recurse : Config → List Config → Option (List Config)) (type_ : String)
    (installedConfigs : List Config)
    (hlookup : ∀ n dc, getDatabaseConfig data n type_ = some dc → Q dc)
    (hrec : ∀ n dc acc r, getDatabaseConfig data n type_ = some dc →
      ResolverInv data Q installedConfigs acc → recurse dc acc = some r →
      ResolverInv data Q installedConfigs r ∧ acc <+: r)
    (deps : List String) :
    ∀ acc r, ResolverInv data Q installedConfigs acc →
      dependencyLoop data recurse type_ installedConfigs deps acc = some r →
      ResolverInv data Q installedConfigs r ∧ acc <+: r := by
  induction deps with
  | nil =>
    intro acc r hinv h
    rw [dependencyLoop_nil] at h
    cases h
    exact ⟨hinv, List.prefix_refl _⟩
  | cons dep rest ih =>
    intro acc r hinv h
    by_cases h1 : installedConfigs.any (fun config => config.name_ == dep) = true
    · rw [dependencyLoop_skip_installed _ _ _ _ _ _ _ h1] at h
      exact ih acc r hinv h
    · by_cases h2 : acc.any (fun config => config.name_ == dep) = true
      · rw [dependencyLoop_skip_present _ _ _ _ _ _ _ h2] at h
        exact ih acc r hinv h
      · cases h3 : getDatabaseConfig data dep type_ with
        | none =>
          rw [dependencyLoop_skip_missing _ _ _ _ _ _ _ h3] at h
          exact ih acc r hinv h
        | some dc =>
          rw [Bool.not_eq_true] at h1 h2
          rw [dependencyLoop_expand _ _ _ _ _ _ _ dc h1 h2 h3] at h
          cases hr : recurse dc (acc ++ [dc]) with
          | none => rw [hr] at h; cases h
          | some acc2 =>
            rw [hr] at h
            have hinv1 := resolverInv_append data Q installedConfigs acc dep type_ dc hinv
              h1 h2 h3 (hlookup dep dc h3)
            obtain ⟨hinv2, hpre2⟩ := hrec dep dc _ acc2 h3 hinv1 hr
            obtain ⟨hinv3, hpre3⟩ := ih acc2 r hinv2 h
            exact ⟨hinv3, ((List.prefix_append acc [dc]).trans hpre2).trans hpre3⟩

theorem getAllDependenciesToInstallRec_inv (data : Data) (Q good : Config → Prop)
    (installedConfigs : List Config)
    (hgood : ∀ c n dc, good c → getDatabaseConfig data n c.type_ = some dc → good dc ∧ Q dc)
    (depth : Nat) :
    ∀ config acc r, good config → ResolverInv data Q installedConfigs acc →
      getAllDependenciesToInstallRec data depth config installedConfigs acc = some r →
      ResolverInv data Q installedConfigs r ∧ acc <+: r := by
  induction depth with
  | zero =>
    intro config acc r _ _ h
    simp [getAllDependenciesToInstallRec] at h
  | succ d ih =>
    intro config acc r hg hinv h
    rw [getAllDependenciesToInstallRec] at h
    exact dependencyLoop_inv data Q _ config.type_ installedConfigs
      (fun n dc hl => (hgood config n dc hg hl).2)
      (fun n dc acc1 r1 hl hinv1 hr1 => ih dc acc1 r1 (hgood config n dc hg hl).1 hinv1 hr1)
      config.dependencies_ acc r hinv h

theorem resolverInv_length_le (data : Data) (Q : Config → Prop)
    (installedConfigs dependencies : List Config)
    (hinv : ResolverInv data Q installedConfigs dependencies) :
    dependencies.length + 1 ≤ depthBound data := by
  have hnd : dependencies.Nodup := List.Nodup.of_map _ hinv.1
  have hsub : dependencies ⊆ data.allPCIConfigs ++ data.allUSBConfigs := hinv.2.2.1
  have hlen := (List.subperm_of_subset hnd hsub).length_le
  rw [List.length_append] at hlen
  unfold depthBound
  omega

theorem dependencyLoop_terminates (data : Data)
    (recurse : Config → List Config → Option (List Config)) (type_ : String)
    (installedConfigs : List Config) (m : Nat)
    (hrecInv : ∀ n dc acc r, getDatabaseConfig data n type_ = some dc →
      ResolverInv data (fun _ => True) installedConfigs acc → recurse dc acc = some r →
      ResolverInv data (fun _ => True) installedConfigs r ∧ acc <+: r)
    (hrecTerm : ∀ n dc acc, getDatabaseConfig data n type_ = some dc →
      ResolverInv data (fun _ => True) installedConfigs acc → m < acc.length →
      ∃ r, recurse dc acc = some r)
    (deps : List String) :
    ∀ acc, ResolverInv data (fun _ => True) installedConfigs acc → m ≤ acc.length →
      ∃ r, dependencyLoop data recurse type_ installedConfigs deps acc = some r := by
  induction deps with
  | nil =>
    intro acc _ _
    exact ⟨acc, rfl⟩
  | cons dep rest ih =>
    intro acc hinv hm
    by_cases h1 : installedConfigs.any (fun config => config.name_ == dep) = true
    · rw [dependencyLoop_skip_installed _ _ _ _ _ _ _ h1]
      exact ih acc hinv hm
    · by_cases h2 : acc.any (fun config => config.name_ == dep) = true
      · rw [dependencyLoop_skip_present _ _ _ _ _ _ _ h2]
        exact ih acc hinv hm
      · cases h3 : getDatabaseConfig data dep type_ with
        | none =>
          rw [dependencyLoop_skip_missing _ _ _ _ _ _ _ h3]
          exact ih acc hinv hm
        | some dc =>
          rw [Bool.not_eq_true] at h1 h2
          rw [dependencyLoop_expand _ _ _ _ _ _ _ dc h1 h2 h3]
          have hinv1 := resolverInv_append data (fun _ => True) installedConfigs acc dep type_
            dc hinv h1 h2 h3 trivial
          have hlen1 : m < (acc ++ [dc]).length := by
            rw [List.length_append, List.length_singleton]; omega
          obtain ⟨acc2, hr⟩ := hrecTerm dep dc _ h3 hinv1 hlen1
          obtain ⟨hinv2, hpre2⟩ := hrecInv dep dc _ acc2 h3 hinv1 hr
          rw [hr]
          have hlen2 := hpre2.length_le
          exact ih acc2 hinv2 (by omega)

theorem getAllDependenciesToInstallRec_terminates (data : Data)
    (installedConfigs : List Config) (depth : Nat) :
    ∀ config acc, ResolverInv data (fun _ => True) installedConfigs acc →
      depthBound data ≤ depth + acc.length →
      ∃ r, getAllDependenciesToInstallRec data depth config installedConfigs acc = some r := by
  induction depth with
  | zero =>
    intro config acc hinv hd
    have := resolverInv_length_le data _ installedConfigs acc hinv
    omega
  | succ d ih =>
    intro config acc hinv hd
    rw [getAllDependenciesToInstallRec]
    refine dependencyLoop_terminates data _ config.type_ installedConfigs acc.length
      (fun n dc acc1 r1 _ hinv1 hr1 =>
        getAllDependenciesToInstallRec_inv data (fun _ => True) (fun _ => True)
          installedConfigs (fun _ _ _ _ _ => ⟨trivial, trivial⟩) d dc acc1 r1 trivial hinv1 hr1)
      (fun n dc acc1 _ hinv1 hlen1 => ih dc acc1 hinv1 (by omega))
      config.dependencies_ acc hinv (le_refl _)

theorem dependencyLoop_mono (data : Data)
    (recurse₁ recurse₂ : Config → List Config → Option (List Config)) (type_ : String)
    (installedConfigs : List Config)
    (hrec : ∀ dc acc r, recurse₁ dc acc = some r → recurse₂ dc acc = some r)
    (deps : List String) :
    ∀ acc r, dependencyLoop data recurse₁ type_ installedConfigs deps acc = some r →
      dependencyLoop data recurse₂ type_ installedConfigs deps acc = some r := by
  induction deps with
  | nil => intro acc r h; exact h
  | cons dep rest ih =>
    intro acc r h
    by_cases h1 : installedConfigs.any (fun config => config.name_ == dep) = true
    · rw [dependencyLoop_skip_installed _ _ _ _ _ _ _ h1] at h ⊢
      exact ih acc r h
    · by_cases h2 : acc.any (fun config => config.name_ == dep) = true
      · rw [dependencyLoop_skip_present _ _ _ _ _ _ _ h2] at h ⊢
        exact ih acc r h
      · cases h3 : getDatabaseConfig data dep type_ with
        | none =>
          rw [dependencyLoop_skip_missing _ _ _ _ _ _ _ h3] at h ⊢
          exact ih acc r h
        | some dc =>
          rw [Bool.not_eq_true] at h1 h2
          rw [dependencyLoop_expand _ _ _ _ _ _ _ dc h1 h2 h3] at h ⊢
          cases hr : recurse₁ dc (acc ++ [dc]) with
          | none => rw [hr] at h; cases h
          | some acc2 =>
            rw [hr] at h
            rw [hrec dc _ acc2 hr]
            exact ih acc2 r h

theorem getAllDependenciesToInstallRec_succ (data : Data) (installedConfigs : List Config)
    (depth : Nat) :
    ∀ config acc r,
      getAllDependenciesToInstallRec data depth config installedConfigs acc = some r →
      getAllDependenciesToInstallRec data (depth + 1) config installedConfigs acc = some r := by
  induction depth with
  | zero =>
    intro config acc r h
    simp [getAllDependenciesToInstallRec] at h
  | succ d ih =>
    intro config acc r h
    rw [getAllDependenciesToInstallRec] at h ⊢
    exact dependencyLoop_mono data _ _ config.type_ installedConfigs
      (fun dc acc1 r1 h1 => ih dc acc1 r1 h1) config.dependencies_ acc r h

theorem getAllDependenciesToInstallRec_mono (data : Data) (installedConfigs : List Config)
    (depth depth2 : Nat) (hle : depth ≤ depth2) (config : Config) (acc r : List Config)
    (h : getAllDependenciesToInstallRec data depth config installedConfigs acc = some r) :
    getAllDependenciesToInstallRec data depth2 config installedConfigs acc = some r := by
  induction depth2, hle using Nat.le_induction with
  | base => exact h
  | succ k _ ih => exact getAllDependenciesToInstallRec_succ data installedConfigs k config acc r ih

theorem resolverInv_nil (data : Data) (Q : Config → Prop) (installedConfigs : List Config) :
    ResolverInv data Q installedConfigs [] := by
  simp [ResolverInv]

theorem getAllDependenciesToInstall_eq (data : Data) (depth : Nat) (config : Config) :
    getAllDependenciesToInstall data depth config =
      getAllDependenciesToInstallRec data depth config (installedOfType data config.type_)
        [] := rfl

/-- The resolver returns one result: from depth `depthBound data` on every run
returns it, no run of any depth returns anything else, and it satisfies the
accumulator invariant with any property `Q` the lookups preserve. -/
theorem getAllDependenciesToInstallRec_result (data : Data) (Q good : Config → Prop)
    (hgood : ∀ c n dc, good c → getDatabaseConfig data n c.type_ = some dc → good dc ∧ Q dc)
    (installedConfigs : List Config) (config : Config) (hg : good config) :
    ∃ deps : List Config,
      (∀ depth, depthBound data ≤ depth →
        getAllDependenciesToInstallRec data depth config installedConfigs [] = some deps) ∧
      (∀ depth r,
        getAllDependenciesToInstallRec data depth config installedConfigs [] = some r →
        r = deps) ∧
      ResolverInv data Q installedConfigs deps := by
  obtain ⟨deps, hdeps⟩ := getAllDependenciesToInstallRec_terminates data
    installedConfigs (depthBound data) config [] (resolverInv_nil _ _ _) (by simp)
  have hfrom : ∀ depth, depthBound data ≤ depth →
      getAllDependenciesToInstallRec data depth config installedConfigs [] = some deps :=
    fun depth hd =>
      getAllDependenciesToInstallRec_mono data _ _ depth hd config [] deps hdeps
  refine ⟨deps, hfrom, ?_, ?_⟩
  · intro depth r hr
    have h1 := getAllDependenciesToInstallRec_mono data _ depth (max depth (depthBound data))
      (le_max_left _ _) config [] r hr
    have h2 := hfrom (max depth (depthBound data)) (le_max_right _ _)
    rw [h1] at h2
    exact Option.some.inj h2
  · exact (getAllDependenciesToInstallRec_inv data Q good _ hgood (depthBound data) config []
      deps hg (resolverInv_nil _ _ _) hdeps).1

theorem getDatabaseConfig_none (data : Data) (configName configType : String)
    (h : ∀ c ∈ catalogOfType data configType, c.name_ ≠ configName) :
    getDatabaseConfig data configName configType = none := by
  unfold getDatabaseConfig
  rw [List.find?_eq_none]
  intro c hc
  have := h c hc
  simpa using fun he : configName = c.name_ => this he.symm

theorem getDatabaseConfig_of_mem (data : Data) (configType : String) (config : Config)
    (hnd : ((catalogOfType data configType).map (fun c => c.name_)).Nodup)
    (hmem : config ∈ catalogOfType data configType) :
    getDatabaseConfig data config.name_ configType = some config := by
  have key : ∀ l : List Config, (l.map (fun c => c.name_)).Nodup → config ∈ l →
      l.find? (fun c => config.name_ == c.name_) = some config := by
    intro l
    induction l with
    | nil => intro _ h; cases h
    | cons x xs ih =>
      intro hnd hmem
      rw [List.map_cons, List.nodup_cons] at hnd
      rcases List.mem_cons.1 hmem with h | h
      · subst h
        simp
      · have hne : config.name_ ≠ x.name_ := by
          intro he
          exact hnd.1 (List.mem_map.2 ⟨config, h, he⟩)
        rw [List.find?_cons_of_neg _ (by simpa using hne)]
        exact ih hnd.2 h
  exact key _ hnd hmem

theorem dependencyLoop_append (data : Data)
    (recurse : Config → List Config → Option (List Config)) (type_ : String)
    (installedConfigs : List Config) (xs ys : List String) :
    ∀ acc, dependencyLoop data recurse type_ installedConfigs (xs ++ ys) acc =
      (dependencyLoop data recurse type_ installedConfigs xs acc).bind
        (dependencyLoop data recurse type_ installedConfigs ys) := by
  induction xs with
  | nil => intro acc; rfl
  | cons dep rest ih =>
    intro acc
    rw [List.cons_append]
    by_cases h1 : installedConfigs.any (fun config => config.name_ == dep) = true
    · rw [dependencyLoop_skip_installed _ _ _ _ _ _ _ h1,
        dependencyLoop_skip_installed _ _ _ _ _ _ _ h1]
      exact ih acc
    · by_cases h2 : acc.any (fun config => config.name_ == dep) = true
      · rw [dependencyLoop_skip_present _ _ _ _ _ _ _ h2,
          dependencyLoop_skip_present _ _ _ _ _ _ _ h2]
        exact ih acc
      · cases h3 : getDatabaseConfig data dep type_ with
        | none =>
          rw [dependencyLoop_skip_missing _ _ _ _ _ _ _ h3,
            dependencyLoop_skip_missing _ _ _ _ _ _ _ h3]
          exact ih acc
        | some dc =>
          rw [Bool.not_eq_true] at h1 h2
          rw [dependencyLoop_expand _ _ _ _ _ _ _ dc h1 h2 h3,
            dependencyLoop_expand _ _ _ _ _ _ _ dc h1 h2 h3]
          cases recurse dc (acc ++ [dc]) with
          | none => rfl
          | some acc2 => exact ih acc2

/-- C7: the resolver excludes installed configs and never repeats a name.
For every catalog, installed list and config, the call started with an empty
accumulator returns (every run of depth `depthBound data` or more returns the
same sequence, and no run returns another one), and the returned sequence has
no entry named as an installed config and no two entries of one name.  The
one-argument overload is the case `installedOfType data config.type_`. -/
theorem getAllDependenciesToInstall_fresh_names (data : Data)
    (installedConfigs : List Config) (config : Config) :
    ∃ deps : List Config,
      (∀ depth, depthBound data ≤ depth →
        getAllDependenciesToInstallRec data depth config installedConfigs [] = some deps) ∧
      (∀ depth r,
        getAllDependenciesToInstallRec data depth config installedConfigs [] = some r →
        r = deps) ∧
      (∀ c ∈ deps, ∀ i ∈ installedConfigs, i.name_ ≠ c.name_) ∧
      (deps.map (fun c => c.name_)).Nodup := by
  obtain ⟨deps, h1, h2, h3⟩ := getAllDependenciesToInstallRec_result data (fun _ => True)
    (fun _ => True) (fun _ _ _ _ _ => ⟨trivial, trivial⟩) installedConfigs config trivial
  exact ⟨deps, h1, h2, h3.2.1, h3.1⟩

/-- C8: the diamond in pre-order.  In a catalog of distinct names holding B, C
and D (differently named), where A depends on [B, C], B (of A's bus type) on
[D], C on [D] and D on nothing, and with nothing installed, resolving A
returns [B, D, C] at every depth from 3 on. -/
theorem getAllDependenciesToInstall_diamond (data : Data) (a b c d : Config)
    (hnd : ((catalogOfType data a.type_).map (fun x => x.name_)).Nodup)
    (hbmem : b ∈ catalogOfType data a.type_) (hcmem : c ∈ catalogOfType data a.type_)
    (hdmem : d ∈ catalogOfType data a.type_) (hbtype : b.type_ = a.type_)
    (hbc : b.name_ ≠ c.name_) (hbd : b.name_ ≠ d.name_) (hcd : c.name_ ≠ d.name_)
    (ha : a.dependencies_ = [b.name_, c.name_]) (hb : b.dependencies_ = [d.name_])
    (hc : c.dependencies_ = [d.name_]) (hd : d.dependencies_ = [])
    (hinst : installedOfType data a.type_ = []) (depth : Nat) :
    getAllDependenciesToInstall data (depth + 3) a = some [b, d, c] := by
  have lb := getDatabaseConfig_of_mem data a.type_ b hnd hbmem
  have lc := getDatabaseConfig_of_mem data a.type_ c hnd hcmem
  have ld := getDatabaseConfig_of_mem data a.type_ d hnd hdmem
  have hD : ∀ k acc, getAllDependenciesToInstallRec data (k + 1) d [] acc = some acc := by
    intro k acc
    rw [getAllDependenciesToInstallRec, hd, dependencyLoop_nil]
  have hB : ∀ k, getAllDependenciesToInstallRec data (k + 2) b [] [b] = some [b, d] := by
    intro k
    rw [getAllDependenciesToInstallRec, hb, hbtype,
      dependencyLoop_expand _ _ _ _ _ _ _ d (by rfl) (by simpa using hbd) ld, hD]
    rfl
  have hC : ∀ k, getAllDependenciesToInstallRec data (k + 1) c [] [b, d, c] =
      some [b, d, c] := by
    intro k
    rw [getAllDependenciesToInstallRec, hc,
      dependencyLoop_skip_present _ _ _ _ _ _ _ (by simp), dependencyLoop_nil]
  rw [getAllDependenciesToInstall_eq, hinst, getAllDependenciesToInstallRec, ha,
    dependencyLoop_expand _ _ _ _ _ _ _ b (by rfl) (by rfl) lb]
  rw [show ([] : List Config) ++ [b] = [b] from rfl, hB depth, Option.some_bind,
    dependencyLoop_expand _ _ _ _ _ _ _ c (by rfl)
      (by simp [hbc, hcd, Ne.symm hbc, Ne.symm hcd]) lc]
  rw [show [b, d] ++ [c] = [b, d, c] from rfl, hC (depth + 1), Option.some_bind,
    dependencyLoop_nil]

/-- The diamond of the example catalog resolves to B, D, C. -/
theorem getAllDependenciesToInstall_diamond_witness :
    ((catalogOfType diamondData diamondA.type_).map (fun x => x.name_)).Nodup ∧
    diamondB ∈ catalogOfType diamondData diamondA.type_ ∧
    diamondC ∈ catalogOfType diamondData diamondA.type_ ∧
    diamondD ∈ catalogOfType diamondData diamondA.type_ ∧
    diamondA.dependencies_ = [diamondB.name_, diamondC.name_] ∧
    diamondB.dependencies_ = [diamondD.name_] ∧
    diamondC.dependencies_ = [diamondD.name_] ∧
    diamondD.dependencies_ = [] ∧
    installedOfType diamondData diamondA.type_ = [] ∧
    getAllDependenciesToInstall diamondData (0 + 3) diamondA =
      some [diamondB, diamondD, diamondC] :=
  ⟨by decide, by decide, by decide, by decide, rfl, rfl, rfl, rfl, rfl,
    getAllDependenciesToInstall_diamond diamondData diamondA diamondB diamondC diamondD
      (by decide) (by decide) (by decide) (by decide) rfl (by decide) (by decide) (by decide)
      rfl rfl rfl rfl rfl 0⟩

theorem dependencyLoop_all_installed (data : Data)
    (recurse : Config → List Config → Option (List Config)) (type_ : String)
    (installedConfigs : List Config) (deps : List String)
    (h : ∀ n ∈ deps, ∃ i ∈ installedConfigs, i.name_ = n) (acc : List Config) :
    dependencyLoop data recurse type_ installedConfigs deps acc = some acc := by
  induction deps with
  | nil => rfl
  | cons dep rest ih =>
    obtain ⟨i, hi, hie⟩ := h dep (List.mem_cons_self _ _)
    rw [dependencyLoop_skip_installed _ _ _ _ _ _ _
      (List.any_eq_true.2 ⟨i, hi, by simpa using hie⟩)]
    exact ih (fun n hn => h n (List.mem_cons_of_mem _ hn))

/-- C9: satisfied dependencies give an empty closure.  If every name in the
config's dependency list is the name of a config of the installed list of its
bus type, the call returns the empty sequence without recursing (at every
depth that lets the call itself run). -/
theorem getAllDependenciesToInstall_satisfied (data : Data) (config : Config)
    (h : ∀ n ∈ config.dependencies_, ∃ i ∈ installedOfType data config.type_, i.name_ = n)
    (depth : Nat) :
    getAllDependenciesToInstall data (depth + 1) config = some [] := by
  rw [getAllDependenciesToInstall_eq, getAllDependenciesToInstallRec]
  exact dependencyLoop_all_installed data _ config.type_ _ config.dependencies_ h []

/-- With B and C installed, resolving A of the diamond returns nothing, and D
(a dependency of the installed B and C, itself not installed) is not
looked at. -/
theorem getAllDependenciesToInstall_satisfied_witness :
    (∀ n ∈ diamondA.dependencies_,
      ∃ i ∈ installedOfType diamondInstalledData diamondA.type_, i.name_ = n) ∧
    (∀ i ∈ installedOfType diamondInstalledData diamondA.type_, i.name_ ≠ diamondD.name_) ∧
    getAllDependenciesToInstall diamondInstalledData (0 + 1) diamondA = some [] :=
  ⟨by decide, by decide,
    getAllDependenciesToInstall_satisfied diamondInstalledData diamondA (by decide) 0⟩

theorem catalogOfType_typed (data : Data) (htyped : CatalogsTyped data) (configType : String)
    (dc : Config) (hmem : dc ∈ catalogOfType data configType) :
    catalogOfType data dc.type_ = catalogOfType data configType := by
  unfold catalogOfType at hmem ⊢
  by_cases ht : "USB" = configType
  · rw [if_pos ht] at hmem ⊢
    rw [if_pos (htyped.1 dc hmem).symm]
  · rw [if_neg ht] at hmem ⊢
    rw [htyped.2 dc hmem, if_neg (by decide)]

theorem getAllDependenciesToInstallRec_drop_missing (data : Data) (depth : Nat)
    (config : Config) (installedConfigs acc : List Config) (pre post : List String)
    (missing : String) (hdeps : config.dependencies_ = pre ++ missing :: post)
    (hmiss : getDatabaseConfig data missing config.type_ = none) :
    getAllDependenciesToInstallRec data depth config installedConfigs acc =
      getAllDependenciesToInstallRec data depth { config with dependencies_ := pre ++ post }
        installedConfigs acc := by
  cases depth with
  | zero => rfl
  | succ d =>
    rw [getAllDependenciesToInstallRec, getAllDependenciesToInstallRec, hdeps,
      dependencyLoop_append, dependencyLoop_append]
    congr 1
    funext acc1
    exact dependencyLoop_skip_missing data _ config.type_ installedConfigs missing post acc1
      hmiss

/-- C10: missing dependency names are skipped without error.  The call
returns (one result, from depth `depthBound data` on); every returned config
is in one of the two catalogs, and in the catalog of the config's bus type
when each catalog holds configs of its own type; and a dependency name that
no config of the catalog bears can be struck from the dependency list without
changing the outcome of the call, whatever the installed list and the
accumulator, so the siblings after it are resolved as before. -/
theorem getAllDependenciesToInstall_skips_missing (data : Data) (config : Config) :
    (∃ deps : List Config,
      (∀ depth, depthBound data ≤ depth →
        getAllDependenciesToInstall data depth config = some deps) ∧
      (∀ depth r, getAllDependenciesToInstall data depth config = some r → r = deps) ∧
      (∀ c ∈ deps, c ∈ data.allPCIConfigs ∨ c ∈ data.allUSBConfigs) ∧
      (CatalogsTyped data → ∀ c ∈ deps, c ∈ catalogOfType data config.type_)) ∧
    (∀ (pre post : List String) (missing : String),
      config.dependencies_ = pre ++ missing :: post →
      (∀ c ∈ catalogOfType data config.type_, c.name_ ≠ missing) →
      ∀ (depth : Nat) (installedConfigs dependencies : List Config),
        getAllDependenciesToInstallRec data depth config installedConfigs dependencies =
          getAllDependenciesToInstallRec data depth
            { config with dependencies_ := pre ++ post } installedConfigs dependencies) := by
  constructor
  · obtain ⟨deps, h1, h2, h3⟩ := getAllDependenciesToInstallRec_result data (fun _ => True)
      (fun _ => True) (fun _ _ _ _ _ => ⟨trivial, trivial⟩)
      (installedOfType data config.type_) config trivial
    refine ⟨deps, h1, h2, fun c hc => List.mem_append.1 (h3.2.2.1 c hc), ?_⟩
    intro htyped
    obtain ⟨deps2, g1, _, g3⟩ := getAllDependenciesToInstallRec_result data
      (fun dc => dc ∈ catalogOfType data config.type_)
      (fun c => catalogOfType data c.type_ = catalogOfType data config.type_)
      (fun c n dc hg hl => by
        have hmem := (getDatabaseConfig_some data n c.type_ dc hl).2.1
        exact ⟨(catalogOfType_typed data htyped c.type_ dc hmem).trans hg, hg ▸ hmem⟩)
      (installedOfType data config.type_) config rfl
    have heq : deps2 = deps := h2 _ deps2 (g1 _ (le_refl _))
    rw [← heq]
    exact g3.2.2.2
  · intro pre post missing hdeps hmiss depth installedConfigs dependencies
    exact getAllDependenciesToInstallRec_drop_missing data depth config installedConfigs
      dependencies pre post missing hdeps
      (getDatabaseConfig_none data missing config.type_ hmiss)

/-- In the example catalog `network-a` depends on the absent `network-missing`
and then on `network-b`: the result is `network-b` alone, the same as without
the absent name. -/
theorem getAllDependenciesToInstall_skips_missing_witness :
    CatalogsTyped networkData ∧
    networkA.dependencies_ = [] ++ "network-missing" :: ["network-b"] ∧
    (∀ c ∈ catalogOfType networkData networkA.type_, c.name_ ≠ "network-missing") ∧
    (∀ i ∈ installedOfType networkData networkA.type_, i.name_ ≠ "network-missing") ∧
    getAllDependenciesToInstall networkData (depthBound networkData) networkA =
      some [networkB] ∧
    networkB ∈ catalogOfType networkData networkA.type_ ∧
    getAllDependenciesToInstallRec networkData (depthBound networkData) networkA [] [] =
      getAllDependenciesToInstallRec networkData (depthBound networkData)
        { networkA with dependencies_ := [] ++ ["network-b"] } [] [] :=
  ⟨⟨by decide, by decide⟩, rfl, by decide, by decide, by decide, by decide,
    (getAllDependenciesToInstall_skips_missing networkData networkA).2 [] ["network-b"]
      "network-missing" rfl (by decide) (depthBound networkData) [] []⟩

theorem getAllDependenciesToInstallRec_result_typed (data : Data) (htyped : CatalogsTyped data)
    (installedConfigs : List Config) (config : Config) :
    ∃ deps : List Config,
      (∀ depth, depthBound data ≤ depth →
        getAllDependenciesToInstallRec data depth config installedConfigs [] = some deps) ∧
      (∀ depth r,
        getAllDependenciesToInstallRec data depth config installedConfigs [] = some r →
        r = deps) ∧
      ResolverInv data (fun dc => getDatabaseConfig data dc.name_ config.type_ = some dc)
        installedConfigs deps := by
  have hlook : ∀ t n, catalogOfType data t = catalogOfType data config.type_ →
      getDatabaseConfig data n t = getDatabaseConfig data n config.type_ := by
    intro t n ht
    unfold getDatabaseConfig
    unfold catalogOfType at ht
    simp only [ht]
  exact getAllDependenciesToInstallRec_result data
    (fun dc => getDatabaseConfig data dc.name_ config.type_ = some dc)
    (fun c => catalogOfType data c.type_ = catalogOfType data config.type_)
    (fun c n dc hg hl => by
      obtain ⟨hname, hmem, _⟩ := getDatabaseConfig_some data n c.type_ dc hl
      refine ⟨(catalogOfType_typed data htyped c.type_ dc hmem).trans hg, ?_⟩
      show getDatabaseConfig data dc.name_ config.type_ = some dc
      rw [hname, ← hlook c.type_ n hg]
      exact hl)
    installedConfigs config rfl

/-- The claim C11 fails on the code: in the example catalog A depends on [B],
B depends on [A], nothing is installed, and the call for A returns [B, A] with
recursion depth 3. -/
theorem dependency_cycle_counterexample :
    cycleA.dependencies_ = [cycleB.name_] ∧ cycleB.dependencies_ = [cycleA.name_] ∧
    catalogOfType cycleData cycleA.type_ = [cycleA, cycleB] ∧
    installedOfType cycleData cycleA.type_ = [] ∧
    getAllDependenciesToInstall cycleData 3 cycleA = some [cycleB, cycleA] := by
  decide

/-- C11 (amended): the dependency cycle is cut by the check of the
accumulator.  In a catalog of distinct names holding A and B (of one bus
type, differently named), where A depends on [B] and B on [A] and neither is
named as an installed config, the call for A needs recursion depth 3 and no
more: it returns [B, A] at every depth from 3 on, and runs of depth below 3
are cut short. -/
theorem getAllDependenciesToInstall_cycle (data : Data) (a b : Config)
    (hnd : ((catalogOfType data a.type_).map (fun x => x.name_)).Nodup)
    (hamem : a ∈ catalogOfType data a.type_) (hbmem : b ∈ catalogOfType data a.type_)
    (hbtype : b.type_ = a.type_) (hab : a.name_ ≠ b.name_)
    (ha : a.dependencies_ = [b.name_]) (hb : b.dependencies_ = [a.name_])
    (hinst : ∀ i ∈ installedOfType data a.type_, i.name_ ≠ a.name_ ∧ i.name_ ≠ b.name_) :
    (∀ depth, getAllDependenciesToInstall data (depth + 3) a = some [b, a]) ∧
    (∀ depth, depth < 3 → getAllDependenciesToInstall data depth a = none) := by
  have la := getDatabaseConfig_of_mem data a.type_ a hnd hamem
  have lb := getDatabaseConfig_of_mem data a.type_ b hnd hbmem
  have ia : (installedOfType data a.type_).any (fun config => config.name_ == a.name_)
      = false := by
    rw [Bool.eq_false_iff, Ne, List.any_eq_true]
    rintro ⟨i, hi, he⟩
    exact (hinst i hi).1 (by simpa using he)
  have ib : (installedOfType data a.type_).any (fun config => config.name_ == b.name_)
      = false := by
    rw [Bool.eq_false_iff, Ne, List.any_eq_true]
    rintro ⟨i, hi, he⟩
    exact (hinst i hi).2 (by simpa using he)
  have hA : ∀ k, getAllDependenciesToInstallRec data (k + 1) a
      (installedOfType data a.type_) [b, a] = some [b, a] := by
    intro k
    rw [getAllDependenciesToInstallRec, ha,
      dependencyLoop_skip_present _ _ _ _ _ _ _ (by simp), dependencyLoop_nil]
  have hBstep : ∀ k, getAllDependenciesToInstallRec data (k + 1) b
      (installedOfType data a.type_) [b] =
      (getAllDependenciesToInstallRec data k a (installedOfType data a.type_) [b, a]).bind
        (fun r => some r) := by
    intro k
    rw [getAllDependenciesToInstallRec, hb, hbtype,
      dependencyLoop_expand _ _ _ _ _ _ _ a ia (by simpa using Ne.symm hab) la]
    rfl
  have hAstep : ∀ k, getAllDependenciesToInstallRec data (k + 1) a
      (installedOfType data a.type_) [] =
      (getAllDependenciesToInstallRec data k b (installedOfType data a.type_) [b]).bind
        (fun r => some r) := by
    intro k
    rw [getAllDependenciesToInstallRec, ha,
      dependencyLoop_expand _ _ _ _ _ _ _ b ib (by rfl) lb]
    rfl
  constructor
  · intro depth
    rw [getAllDependenciesToInstall_eq, hAstep, hBstep, hA]
    rfl
  · intro depth hlt
    rw [getAllDependenciesToInstall_eq]
    match depth, hlt with
    | 0, _ => rfl
    | 1, _ => rw [hAstep]; rfl
    | 2, _ => rw [hAstep, hBstep]; rfl

/-- The cycle of the example catalog resolves to B, A at depth 3. -/
theorem getAllDependenciesToInstall_cycle_witness :
    ((catalogOfType cycleData cycleA.type_).map (fun x => x.name_)).Nodup ∧
    cycleA ∈ catalogOfType cycleData cycleA.type_ ∧
    cycleB ∈ catalogOfType cycleData cycleA.type_ ∧
    cycleA.dependencies_ = [cycleB.name_] ∧ cycleB.dependencies_ = [cycleA.name_] ∧
    ((∀ depth, getAllDependenciesToInstall cycleData (depth + 3) cycleA =
        some [cycleB, cycleA]) ∧
      (∀ depth, depth < 3 → getAllDependenciesToInstall cycleData depth cycleA = none)) :=
  ⟨by decide, by decide, by decide, rfl, rfl,
    getAllDependenciesToInstall_cycle cycleData cycleA cycleB (by decide) (by decide)
      (by decide) rfl (by decide) rfl rfl (by decide)⟩

/-- C19: the dependency resolver terminates on every input.  For every
catalog, installed list and config, cycles included, the call started with an
empty accumulator returns (every run of depth `depthBound data` or more
returns the same sequence, no run returns another one); the returned sequence
has no two entries of one name and at most as many entries as the two catalogs
have distinct names, and at most as many as the catalog of the config's bus
type has distinct names when each catalog holds configs of its own type. -/
theorem getAllDependenciesToInstall_terminates (data : Data)
    (installedConfigs : List Config) (config : Config) :
    ∃ deps : List Config,
      (∀ depth, depthBound data ≤ depth →
        getAllDependenciesToInstallRec data depth config installedConfigs [] = some deps) ∧
      (∀ depth r,
        getAllDependenciesToInstallRec data depth config installedConfigs [] = some r →
        r = deps) ∧
      (deps.map (fun c => c.name_)).Nodup ∧
      deps.length ≤
        ((data.allPCIConfigs ++ data.allUSBConfigs).map (fun c => c.name_)).dedup.length ∧
      (CatalogsTyped data → deps.length ≤
        ((catalogOfType data config.type_).map (fun c => c.name_)).dedup.length) := by
  have hlen : ∀ (deps catalog : List Config), (deps.map (fun c => c.name_)).Nodup →
      (∀ c ∈ deps, c ∈ catalog) →
      deps.length ≤ (catalog.map (fun c => c.name_)).dedup.length := by
    intro deps catalog hnd hsub
    have hs : deps.map (fun c => c.name_) ⊆ (catalog.map (fun c => c.name_)).dedup := by
      intro n hn
      obtain ⟨c, hc, rfl⟩ := List.mem_map.1 hn
      exact List.mem_dedup.2 (List.mem_map.2 ⟨c, hsub c hc, rfl⟩)
    have := (List.subperm_of_subset hnd hs).length_le
    rwa [List.length_map] at this
  obtain ⟨deps, h1, h2, h3⟩ := getAllDependenciesToInstallRec_result data (fun _ => True)
    (fun _ => True) (fun _ _ _ _ _ => ⟨trivial, trivial⟩) installedConfigs config trivial
  refine ⟨deps, h1, h2, h3.1, hlen deps _ h3.1 h3.2.2.1, ?_⟩
  intro htyped
  obtain ⟨deps2, g1, _, g3⟩ := getAllDependenciesToInstallRec_result_typed data htyped
    installedConfigs config
  have heq : deps2 = deps := h2 _ deps2 (g1 _ (le_refl _))
  rw [← heq]
  exact hlen deps2 _ g3.1
    (fun c hc => (getDatabaseConfig_some data _ _ c (g3.2.2.2 c hc)).2.1)

/-- In the example catalog with the cycle, resolving A returns [B, A]: the
result holds the target config itself. -/
theorem getAllDependenciesToInstall_terminates_witness :
    (∃ deps : List Config,
      (∀ depth, depthBound cycleData ≤ depth →
        getAllDependenciesToInstallRec cycleData depth cycleA [] [] = some deps) ∧
      (∀ depth r,
        getAllDependenciesToInstallRec cycleData depth cycleA [] [] = some r → r = deps) ∧
      (deps.map (fun c => c.name_)).Nodup ∧
      deps.length ≤
        ((cycleData.allPCIConfigs ++ cycleData.allUSBConfigs).map
          (fun c => c.name_)).dedup.length ∧
      (CatalogsTyped cycleData → deps.length ≤
        ((catalogOfType cycleData cycleA.type_).map (fun c => c.name_)).dedup.length)) ∧
    getAllDependenciesToInstallRec cycleData (depthBound cycleData) cycleA [] [] =
      some [cycleB, cycleA] ∧
    cycleA ∈ [cycleB, cycleA] ∧
    ((catalogOfType cycleData cycleA.type_).map (fun c => c.name_)).dedup.length = 2 :=
  ⟨getAllDependenciesToInstall_terminates cycleData [] cycleA, by decide, by decide,
    by decide⟩

/-! ## Theorems: single-device binding and the order invariant -/

/-- C15: single-device binding implies every rule passes.  If
`getAllDevicesOfConfig` on the one-element device list `[device]` returns a
non-empty list, the device passes every rule of the config: the six-part
condition holds and the nested checks of lines 132-170 reach line 172. -/
theorem getAllDevicesOfConfig_single (fnm : String → String → Nat → Int) (config : Config)
    (device : Device) (h : getAllDevicesOfConfig fnm [device] config ≠ []) :
    ∀ hwdID ∈ config.hwdIDs_,
      passesRule fnm hwdID device ∧ deviceMatches fnm hwdID device = true := by
  intro hwdID hmem
  have hp : passesRule fnm hwdID device := by
    by_contra hnp
    apply h
    apply getAllDevicesOfConfig_eq_nil
    refine ⟨hwdID, hmem, ?_⟩
    intro d hd
    rw [List.mem_singleton.1 hd]
    exact hnp
  exact ⟨hp, (deviceMatches_iff fnm hwdID device).2 hp⟩

/-- The display controller alone is bound by the config with the rules
`ruleNvidia` and `ruleAny`, and passes both. -/
theorem getAllDevicesOfConfig_single_witness :
    getAllDevicesOfConfig fnmatch [gpuDevice]
      (pciConfig "video-nvidia" 10 [ruleNvidia, ruleAny] []) ≠ [] ∧
    ∀ hwdID ∈ (pciConfig "video-nvidia" 10 [ruleNvidia, ruleAny] []).hwdIDs_,
      passesRule fnmatch hwdID gpuDevice ∧ deviceMatches fnmatch hwdID gpuDevice = true :=
  ⟨by decide,
    getAllDevicesOfConfig_single fnmatch (pciConfig "video-nvidia" 10 [ruleNvidia, ruleAny] [])
      gpuDevice (by decide)⟩

/-- C16: the priority-order invariant.  If a list is ordered by descending
priority and its names are pairwise distinct, the list after
`addConfigSorted` is again ordered by descending priority with pairwise
distinct names, for every new config. -/
theorem addConfigSorted_invariant (configs : List Config) (newConfig : Config)
    (hs : configs.Pairwise (fun a b => a.priority_ ≥ b.priority_))
    (hn : (configs.map (fun c => c.name_)).Nodup) :
    (addConfigSorted configs newConfig).Pairwise (fun a b => a.priority_ ≥ b.priority_) ∧
    ((addConfigSorted configs newConfig).map (fun c => c.name_)).Nodup := by
  by_cases hnew : newConfig.name_ ∈ configs.map (fun c => c.name_)
  · obtain ⟨c, hc, hce⟩ := List.mem_map.1 hnew
    rw [addConfigSorted_of_present configs newConfig ⟨c, hc, hce⟩]
    exact ⟨hs, hn⟩
  · rw [addConfigSorted_of_new configs newConfig hnew]
    refine ⟨insertByPriority_sorted newConfig configs hs, ?_⟩
    rw [((insertByPriority_perm newConfig configs).map _).nodup_iff, List.map_cons,
      List.nodup_cons]
    exact ⟨hnew, hn⟩

/-- A new config of priority 7 goes between the entries of priority 10 and 5
of the sorted example list, which stays ordered with distinct names. -/
theorem addConfigSorted_invariant_witness :
    (addAllSorted arrivalExample).Pairwise (fun a b => a.priority_ ≥ b.priority_) ∧
    ((addAllSorted arrivalExample).map (fun c => c.name_)).Nodup ∧
    ((addConfigSorted (addAllSorted arrivalExample)
        (pciConfig "video-fifth" 7 [ruleAny] [])).Pairwise
        (fun a b => a.priority_ ≥ b.priority_) ∧
      ((addConfigSorted (addAllSorted arrivalExample)
        (pciConfig "video-fifth" 7 [ruleAny] [])).map (fun c => c.name_)).Nodup) ∧
    (addConfigSorted (addAllSorted arrivalExample)
        (pciConfig "video-fifth" 7 [ruleAny] [])).map (fun c => c.priority_) =
      [10, 10, 7, 5, 3] :=
  ⟨by decide, by decide,
    addConfigSorted_invariant (addAllSorted arrivalExample)
      (pciConfig "video-fifth" 7 [ruleAny] []) (by decide) (by decide),
    by decide⟩

/-! ## Theorems: reverse dependencies -/

theorem requirementDependencyLoop_eq (configName : String) (installedConfig : Config)
    (deps : List String) (requirements : List Config) :
    requirementDependencyLoop configName installedConfig deps requirements =
      if configName ∈ deps ∧
          requirements.any (fun req => req.name_ == installedConfig.name_) = false then
        requirements ++ [installedConfig]
      else requirements := by
  induction deps with
  | nil => simp [requirementDependencyLoop]
  | cons dep rest ih =>
    rw [requirementDependencyLoop]
    by_cases hd : dep = configName
    · by_cases hf : requirements.any (fun req => req.name_ == installedConfig.name_) = true
      · rw [ih]
        simp [hd, hf]
      · rw [Bool.not_eq_true] at hf
        simp [hd, hf]
    · have hne : (dep == configName) = false := by simpa using hd
      have hmem : configName ∈ dep :: rest ↔ configName ∈ rest := by
        rw [List.mem_cons]
        constructor
        · rintro (h | h)
          · exact absurd h.symm hd
          · exact h
        · exact Or.inr
      simp only [hne, Bool.false_eq_true, if_false, ih, hmem]

theorem firstOfEachName_sublist (l : List Config) : (firstOfEachName l).Sublist l := by
  induction l with
  | nil => exact List.Sublist.refl _
  | cons c rest ih =>
    rw [firstOfEachName]
    exact ((List.filter_sublist _).trans ih).cons₂ c

theorem firstOfEachName_nodup (l : List Config) :
    ((firstOfEachName l).map (fun c => c.name_)).Nodup := by
  induction l with
  | nil => simp [firstOfEachName]
  | cons c rest ih =>
    rw [firstOfEachName, List.map_cons, List.nodup_cons]
    constructor
    · intro hmem
      obtain ⟨x, hx, hxe⟩ := List.mem_map.1 hmem
      have := (List.mem_filter.1 hx).2
      simp only [bne_iff_ne, ne_eq] at this
      exact this hxe
    · exact ih.sublist ((List.filter_sublist _).map _)

theorem firstOfEachName_covers (l : List Config) :
    ∀ y ∈ l, ∃ r ∈ firstOfEachName l, r.name_ = y.name_ := by
  induction l with
  | nil => intro y hy; cases hy
  | cons c rest ih =>
    intro y hy
    rw [firstOfEachName]
    rcases List.mem_cons.1 hy with rfl | hy
    · exact ⟨y, List.mem_cons_self _ _, rfl⟩
    · obtain ⟨r, hr, hre⟩ := ih y hy
      by_cases hc : r.name_ = c.name_
      · exact ⟨c, List.mem_cons_self _ _, hc.symm.trans hre⟩
      · exact ⟨r, List.mem_cons_of_mem _ (List.mem_filter.2 ⟨hr, by simpa using hc⟩), hre⟩

theorem firstOfEachName_of_nodup (l : List Config)
    (hnd : (l.map (fun c => c.name_)).Nodup) : firstOfEachName l = l := by
  induction l with
  | nil => rfl
  | cons c rest ih =>
    rw [List.map_cons, List.nodup_cons] at hnd
    rw [firstOfEachName, ih hnd.2, List.filter_eq_self.2]
    intro x hx
    simp only [bne_iff_ne, ne_eq]
    intro he
    exact hnd.1 (List.mem_map.2 ⟨x, hx, he⟩)

theorem requirementLoop_eq (configName : String) (installedConfigs : List Config) :
    ∀ requirements : List Config,
      requirementLoop configName installedConfigs requirements =
        requirements ++
          (firstOfEachName
            (installedConfigs.filter (fun i => decide (configName ∈ i.dependencies_)))).filter
            (fun x => !(requirements.any (fun req => req.name_ == x.name_))) := by
  induction installedConfigs with
  | nil => intro requirements; simp [requirementLoop, firstOfEachName]
  | cons ic rest ih =>
    intro requirements
    rw [requirementLoop, requirementDependencyLoop_eq, ih]
    by_cases hdep : configName ∈ ic.dependencies_
    · rw [List.filter_cons_of_pos (by simpa using hdep), firstOfEachName]
      by_cases hf : requirements.any (fun req => req.name_ == ic.name_) = true
      · have hf2 : ¬ (requirements.any (fun req => req.name_ == ic.name_) = false) := by
          rw [hf]; simp
        rw [if_neg (fun h => hf2 h.2), List.filter_cons_of_neg (by simp [hf]),
          List.filter_filter]
        congr 1
        apply List.filter_congr
        intro x _
        by_cases hx : requirements.any (fun req => req.name_ == x.name_) = true
        · simp [hx]
        · rw [Bool.not_eq_true] at hx
          have hne : x.name_ ≠ ic.name_ := by
            intro he
            rw [he, hf] at hx
            cases hx
          simp [hx, hne]
      · rw [Bool.not_eq_true] at hf
        rw [if_pos ⟨hdep, hf⟩, List.filter_cons_of_pos (by simp [hf]), List.filter_filter,
          List.append_assoc, List.singleton_append]
        congr 2
        apply List.filter_congr
        intro x _
        rw [List.any_append]
        by_cases hne : ic.name_ = x.name_
        · simp [hne]
        · have h1 : (ic.name_ == x.name_) = false := by simpa using hne
          have h2 : (x.name_ != ic.name_) = true := by simpa using Ne.symm hne
          simp [h1, h2]
    · rw [if_neg (fun h => hdep h.1), List.filter_cons_of_neg (by simpa using hdep)]

/-- C14: the requirement guard.  `getAllLocalRequirements` returns the
installed configs whose dependency list holds the target's name (exact string
equality), the first of each name, in installed order: every returned config
is an installed config that depends on the target, no two returned configs
share a name, every installed config that depends on the target has a
returned config of its name, the result is all of those configs when the
installed names are pairwise distinct, and it is empty when no installed
config depends on the target. -/
theorem getAllLocalRequirements_spec (data : Data) (config : Config) :
    getAllLocalRequirements data config =
      firstOfEachName ((installedOfType data config.type_).filter
        (fun i => decide (config.name_ ∈ i.dependencies_))) ∧
    (getAllLocalRequirements data config).Sublist (installedOfType data config.type_) ∧
    ((getAllLocalRequirements data config).map (fun c => c.name_)).Nodup ∧
    (∀ r ∈ getAllLocalRequirements data config,
      r ∈ installedOfType data config.type_ ∧ config.name_ ∈ r.dependencies_) ∧
    (∀ y ∈ installedOfType data config.type_, config.name_ ∈ y.dependencies_ →
      ∃ r ∈ getAllLocalRequirements data config, r.name_ = y.name_) ∧
    (((installedOfType data config.type_).map (fun c => c.name_)).Nodup →
      getAllLocalRequirements data config =
        (installedOfType data config.type_).filter
          (fun i => decide (config.name_ ∈ i.dependencies_))) ∧
    ((∀ y ∈ installedOfType data config.type_, config.name_ ∉ y.dependencies_) →
      getAllLocalRequirements data config = []) := by
  have heq : getAllLocalRequirements data config =
      firstOfEachName ((installedOfType data config.type_).filter
        (fun i => decide (config.name_ ∈ i.dependencies_))) := by
    show requirementLoop config.name_ (installedOfType data config.type_) [] = _
    rw [requirementLoop_eq]
    simp
  have hsub := (firstOfEachName_sublist ((installedOfType data config.type_).filter
    (fun i => decide (config.name_ ∈ i.dependencies_)))).trans (List.filter_sublist _)
  refine ⟨heq, heq ▸ hsub, heq ▸ firstOfEachName_nodup _, ?_, ?_, ?_, ?_⟩
  · intro r hr
    rw [heq] at hr
    have := (firstOfEachName_sublist _).subset hr
    have h2 := List.mem_filter.1 this
    exact ⟨h2.1, by simpa using h2.2⟩
  · intro y hy hdep
    rw [heq]
    exact firstOfEachName_covers _ y (List.mem_filter.2 ⟨hy, by simpa using hdep⟩)
  · intro hnd
    rw [heq]
    exact firstOfEachName_of_nodup _ (hnd.sublist ((List.filter_sublist _).map _))
  · intro hnone
    rw [heq, List.filter_eq_nil_iff.2]
    · rfl
    · intro y hy
      simpa using hnone y hy

/-! ## Theorems: conflicts -/

theorem installedConflictLoop_eq (fnm : String → String → Nat → Int) (configName : String)
    (p : String) (installedConfigs conflicts : List Config) :
    installedConflictLoop fnm configName p installedConfigs conflicts =
      if conflicts.any (fun conflict => conflict.name_ == p) = true then conflicts
      else match firstConflict fnm configName p installedConfigs with
        | some i => conflicts ++ [i]
        | none => conflicts := by
  induction installedConfigs with
  | nil =>
    rw [installedConflictLoop]
    simp [firstConflict]
  | cons ic rest ih =>
    rw [installedConflictLoop, ih]
    unfold firstConflict
    by_cases hself : (ic.name_ == configName) = true
    · rw [if_pos hself, List.find?_cons_of_neg _ (by simp [hself])]
    · rw [if_neg hself]
      rw [Bool.not_eq_true] at hself
      by_cases hm : (fnm p ic.name_ FNM_CASEFOLD == 0) = true
      · rw [if_pos hm, List.find?_cons_of_pos _ (by simp [hself, hm])]
        by_cases hf : conflicts.any (fun conflict => conflict.name_ == p) = true
        · simp [hf]
        · rw [Bool.not_eq_true] at hf
          simp [hf]
      · rw [if_neg hm, List.find?_cons_of_neg _ (by simp [hm])]

theorem firstConflict_some (fnm : String → String → Nat → Int) (configName p : String)
    (installedConfigs : List Config) (i : Config)
    (h : firstConflict fnm configName p installedConfigs = some i) :
    i ∈ installedConfigs ∧ i.name_ ≠ configName ∧ fnm p i.name_ FNM_CASEFOLD = 0 := by
  unfold firstConflict at h
  have h1 := List.find?_some h
  have h2 := List.mem_of_find?_eq_some h
  simp only [Bool.and_eq_true, Bool.not_eq_true', beq_eq_false_iff_ne, ne_eq,
    beq_iff_eq] at h1
  exact ⟨h2, h1.1, h1.2⟩

theorem installedConflictLoop_cases (fnm : String → String → Nat → Int)
    (configName p : String) (installedConfigs conflicts : List Config) :
    installedConflictLoop fnm configName p installedConfigs conflicts = conflicts ∨
    ∃ i, firstConflict fnm configName p installedConfigs = some i ∧
      installedConflictLoop fnm configName p installedConfigs conflicts = conflicts ++ [i] := by
  rw [installedConflictLoop_eq]
  by_cases hf : conflicts.any (fun conflict => conflict.name_ == p) = true
  · rw [if_pos hf]; exact Or.inl rfl
  · rw [if_neg hf]
    cases hfc : firstConflict fnm configName p installedConfigs with
    | none => exact Or.inl rfl
    | some i => exact Or.inr ⟨i, rfl, rfl⟩

theorem installedConflictLoop_found (fnm : String → String → Nat → Int)
    (configName p : String) (installedConfigs conflicts : List Config) (i : Config)
    (h : firstConflict fnm configName p installedConfigs = some i) :
    i ∈ installedConflictLoop fnm configName p installedConfigs conflicts ∨
    ∃ c ∈ installedConflictLoop fnm configName p installedConfigs conflicts, c.name_ = p := by
  rw [installedConflictLoop_eq]
  by_cases hf : conflicts.any (fun conflict => conflict.name_ == p) = true
  · rw [if_pos hf]
    obtain ⟨c, hc, hce⟩ := List.any_eq_true.1 hf
    exact Or.inr ⟨c, hc, by simpa using hce⟩
  · rw [if_neg hf, h]
    exact Or.inl (List.mem_append_right _ (List.mem_singleton_self i))

/-- What the pattern loop does to `conflicts`: it only appends, at most one
entry per pattern, each an installed config not named `configName` that one of
the patterns matches; and for each pattern with a candidate, the candidate or
a config named as the pattern itself is in the outcome. -/
theorem conflictPatternLoop_spec (fnm : String → String → Nat → Int) (configName : String)
    (installedConfigs : List Config) (patterns : List String) :
    ∀ conflicts : List Config,
      conflicts <+: conflictPatternLoop fnm configName installedConfigs patterns conflicts ∧
      (conflictPatternLoop fnm configName installedConfigs patterns conflicts).length ≤
        conflicts.length + patterns.length ∧
      (∀ r ∈ conflictPatternLoop fnm configName installedConfigs patterns conflicts,
        r ∈ conflicts ∨ (r ∈ installedConfigs ∧ r.name_ ≠ configName ∧
          ∃ p ∈ patterns, fnm p r.name_ FNM_CASEFOLD = 0)) ∧
      (∀ p ∈ patterns, ∀ i, firstConflict fnm configName p installedConfigs = some i →
        i ∈ conflictPatternLoop fnm configName installedConfigs patterns conflicts ∨
        ∃ c ∈ conflictPatternLoop fnm configName installedConfigs patterns conflicts,
          c.name_ = p) := by
  induction patterns with
  | nil =>
    intro conflicts
    refine ⟨List.prefix_refl _, by simp [conflictPatternLoop], ?_, ?_⟩
    · intro r hr; exact Or.inl hr
    · intro p hp; cases hp
  | cons q rest ih =>
    intro conflicts
    rw [conflictPatternLoop]
    obtain ⟨h1, h2, h3, h4⟩ :=
      ih (installedConflictLoop fnm configName q installedConfigs conflicts)
    have hstep := installedConflictLoop_cases fnm configName q installedConfigs conflicts
    have hpre : conflicts <+:
        installedConflictLoop fnm configName q installedConfigs conflicts := by
      rcases hstep with h | ⟨i, _, h⟩
      · rw [h]
      · rw [h]; exact List.prefix_append _ _
    have hlen : (installedConflictLoop fnm configName q installedConfigs conflicts).length ≤
        conflicts.length + 1 := by
      rcases hstep with h | ⟨i, _, h⟩
      · rw [h]; omega
      · rw [h, List.length_append, List.length_singleton]
    refine ⟨hpre.trans h1, ?_, ?_, ?_⟩
    · rw [List.length_cons]; omega
    · intro r hr
      rcases h3 r hr with hr1 | ⟨hr1, hr2, p, hp, hpm⟩
      · rcases hstep with h | ⟨i, hi, h⟩
        · rw [h] at hr1; exact Or.inl hr1
        · rw [h] at hr1
          rcases List.mem_append.1 hr1 with hr1 | hr1
          · exact Or.inl hr1
          · rw [List.mem_singleton.1 hr1]
            obtain ⟨m1, m2, m3⟩ := firstConflict_some fnm configName q installedConfigs i hi
            exact Or.inr ⟨m1, m2, q, List.mem_cons_self _ _, m3⟩
      · exact Or.inr ⟨hr1, hr2, p, List.mem_cons_of_mem _ hp, hpm⟩
    · intro p hp i hi
      rcases List.mem_cons.1 hp with rfl | hp
      · rcases installedConflictLoop_found fnm configName p installedConfigs conflicts i hi
          with h | ⟨c, hc, hce⟩
        · exact Or.inl (h1.subset h)
        · exact Or.inr ⟨c, h1.subset hc, hce⟩
      · exact h4 p hp i hi

/-- The same for the loop over the dependencies and their patterns. -/
theorem dependencyConflictLoop_spec (fnm : String → String → Nat → Int) (configName : String)
    (installedConfigs : List Config) (dependencies : List Config) :
    ∀ conflicts : List Config,
      conflicts <+:
        dependencyConflictLoop fnm configName installedConfigs dependencies conflicts ∧
      (dependencyConflictLoop fnm configName installedConfigs dependencies conflicts).length ≤
        conflicts.length + (dependencies.map (fun m => m.conflicts_.length)).sum ∧
      (∀ r ∈ dependencyConflictLoop fnm configName installedConfigs dependencies conflicts,
        r ∈ conflicts ∨ (r ∈ installedConfigs ∧ r.name_ ≠ configName ∧
          ∃ m ∈ dependencies, ∃ p ∈ m.conflicts_, fnm p r.name_ FNM_CASEFOLD = 0)) ∧
      (∀ m ∈ dependencies, ∀ p ∈ m.conflicts_, ∀ i,
        firstConflict fnm configName p installedConfigs = some i →
        i ∈ dependencyConflictLoop fnm configName installedConfigs dependencies conflicts ∨
        ∃ c ∈ dependencyConflictLoop fnm configName installedConfigs dependencies conflicts,
          c.name_ = p) := by
  induction dependencies with
  | nil =>
    intro conflicts
    refine ⟨List.prefix_refl _, by simp [dependencyConflictLoop], ?_, ?_⟩
    · intro r hr; exact Or.inl hr
    · intro m hm; cases hm
  | cons d rest ih =>
    intro conflicts
    rw [dependencyConflictLoop]
    obtain ⟨h1, h2, h3, h4⟩ :=
      ih (conflictPatternLoop fnm configName installedConfigs d.conflicts_ conflicts)
    obtain ⟨g1, g2, g3, g4⟩ :=
      conflictPatternLoop_spec fnm configName installedConfigs d.conflicts_ conflicts
    refine ⟨g1.trans h1, ?_, ?_, ?_⟩
    · rw [List.map_cons, List.sum_cons]; omega
    · intro r hr
      rcases h3 r hr with hr1 | ⟨hr1, hr2, m, hm, p, hp, hpm⟩
      · rcases g3 r hr1 with hr2 | ⟨hr2, hr3, p, hp, hpm⟩
        · exact Or.inl hr2
        · exact Or.inr ⟨hr2, hr3, d, List.mem_cons_self _ _, p, hp, hpm⟩
      · exact Or.inr ⟨hr1, hr2, m, List.mem_cons_of_mem _ hm, p, hp, hpm⟩
    · intro m hm p hp i hi
      rcases List.mem_cons.1 hm with rfl | hm
      · rcases g4 p hp i hi with h | ⟨c, hc, hce⟩
        · exact Or.inl (h1.subset h)
        · exact Or.inr ⟨c, h1.subset hc, hce⟩
      · exact h4 m hm p hp i hi

theorem getAllLocalConflicts_of_deps (fnm : String → String → Nat → Int) (data : Data)
    (depth : Nat) (config : Config) (deps : List Config)
    (h : getAllDependenciesToInstall data depth config = some deps) :
    getAllLocalConflicts fnm data depth config =
      some (dependencyConflictLoop fnm config.name_ (installedOfType data config.type_)
        (deps ++ [config]) []) := by
  unfold getAllLocalConflicts
  rw [h]
  rfl

theorem getAllLocalConflicts_some (fnm : String → String → Nat → Int) (data : Data)
    (depth : Nat) (config : Config) (result : List Config)
    (h : getAllLocalConflicts fnm data depth config = some result) :
    ∃ deps, getAllDependenciesToInstall data depth config = some deps ∧
      result = dependencyConflictLoop fnm config.name_ (installedOfType data config.type_)
        (deps ++ [config]) [] := by
  cases hd : getAllDependenciesToInstall data depth config with
  | none =>
    unfold getAllLocalConflicts at h
    rw [hd] at h
    cases h
  | some deps =>
    rw [getAllLocalConflicts_of_deps fnm data depth config deps hd] at h
    exact ⟨deps, rfl, (Option.some.inj h).symm⟩

theorem getAllLocalConflicts_unique (fnm : String → String → Nat → Int) (data : Data)
    (config : Config) (deps : List Config)
    (h2 : ∀ depth r, getAllDependenciesToInstall data depth config = some r → r = deps)
    (depth : Nat) (r : List Config)
    (h : getAllLocalConflicts fnm data depth config = some r) :
    r = dependencyConflictLoop fnm config.name_ (installedOfType data config.type_)
      (deps ++ [config]) [] := by
  obtain ⟨deps2, hd, hr⟩ := getAllLocalConflicts_some fnm data depth config r h
  rw [hr, h2 depth deps2 hd]

/-- C18: conflict results are sound and never name the target.  The call
returns (one result, from depth `depthBound data` on), and every returned
config is an installed config of the bus type, is named differently from the
target, and has a name matched by a conflict pattern of the target or of a
member of `getAllDependenciesToInstall(config)`. -/
theorem getAllLocalConflicts_sound (fnm : String → String → Nat → Int) (data : Data)
    (config : Config) :
    ∃ deps result : List Config,
      (∀ depth, depthBound data ≤ depth →
        getAllDependenciesToInstall data depth config = some deps ∧
        getAllLocalConflicts fnm data depth config = some result) ∧
      (∀ depth r, getAllLocalConflicts fnm data depth config = some r → r = result) ∧
      ∀ c ∈ result, c ∈ installedOfType data config.type_ ∧ c.name_ ≠ config.name_ ∧
        ∃ m, (m = config ∨ m ∈ deps) ∧ ∃ p ∈ m.conflicts_, fnm p c.name_ FNM_CASEFOLD = 0 := by
  obtain ⟨deps, h1, h2, _⟩ := getAllDependenciesToInstallRec_result data (fun _ => True)
    (fun _ => True) (fun _ _ _ _ _ => ⟨trivial, trivial⟩)
    (installedOfType data config.type_) config trivial
  refine ⟨deps, _, fun depth hd => ⟨h1 depth hd,
    getAllLocalConflicts_of_deps fnm data depth config deps (h1 depth hd)⟩,
    getAllLocalConflicts_unique fnm data config deps h2, ?_⟩
  intro c hc
  obtain ⟨_, _, h3, _⟩ := dependencyConflictLoop_spec fnm config.name_
    (installedOfType data config.type_) (deps ++ [config]) []
  rcases h3 c hc with hnil | ⟨m1, m2, m, hm, p, hp, hpm⟩
  · cases hnil
  · refine ⟨m1, m2, m, ?_, p, hp, hpm⟩
    rcases List.mem_append.1 hm with hm | hm
    · exact Or.inr hm
    · exact Or.inl (List.mem_singleton.1 hm)

/-- For `hybridConfig`, whose dependency declares the pattern, the one
returned config is the installed `nouveauConfig`. -/
theorem getAllLocalConflicts_sound_witness :
    (∃ deps result : List Config,
      (∀ depth, depthBound transitiveData ≤ depth →
        getAllDependenciesToInstall transitiveData depth hybridConfig = some deps ∧
        getAllLocalConflicts fnmatch transitiveData depth hybridConfig = some result) ∧
      (∀ depth r, getAllLocalConflicts fnmatch transitiveData depth hybridConfig = some r →
        r = result) ∧
      ∀ c ∈ result, c ∈ installedOfType transitiveData hybridConfig.type_ ∧
        c.name_ ≠ hybridConfig.name_ ∧
        ∃ m, (m = hybridConfig ∨ m ∈ deps) ∧
          ∃ p ∈ m.conflicts_, fnmatch p c.name_ FNM_CASEFOLD = 0) ∧
    getAllLocalConflicts fnmatch transitiveData (depthBound transitiveData) hybridConfig =
      some [nouveauConfig] :=
  ⟨getAllLocalConflicts_sound fnmatch transitiveData hybridConfig, by decide⟩

/-- C17: conflicts are recorded once.  The code does not keep this: for the
target with the patterns `x*` and `*y` and the one installed config `xy`
(installed names pairwise distinct), `getAllLocalConflicts` returns `xy`
twice, because the check of lines 304-308 compares the recorded names with
the pattern and not with the name of the installed config. -/
theorem getAllLocalConflicts_records_twice :
    globConfig.conflicts_ = ["x*", "*y"] ∧
    installedOfType globData globConfig.type_ = [xyConfig] ∧
    ((installedOfType globData globConfig.type_).map (fun c => c.name_)).Nodup ∧
    getAllLocalConflicts fnmatch globData (depthBound globData) globConfig =
      some [xyConfig, xyConfig] ∧
    ¬ ([xyConfig, xyConfig].map (fun c => c.name_)).Nodup := by
  decide

theorem lookup_typed_step (data : Data) (htyped : CatalogsTyped data) (t : String)
    (c : Config) (n : String) (dc : Config)
    (hg : catalogOfType data c.type_ = catalogOfType data t)
    (hl : getDatabaseConfig data n c.type_ = some dc) :
    catalogOfType data dc.type_ = catalogOfType data t ∧
      getDatabaseConfig data dc.name_ t = some dc := by
  obtain ⟨hname, hmem, _⟩ := getDatabaseConfig_some data n c.type_ dc hl
  refine ⟨(catalogOfType_typed data htyped c.type_ dc hmem).trans hg, ?_⟩
  have hlook : getDatabaseConfig data n c.type_ = getDatabaseConfig data n t := by
    unfold getDatabaseConfig
    unfold catalogOfType at hg
    simp only [hg]
  rw [hname, ← hlook]
  exact hl

theorem dependencyLoop_named (data : Data) (Q : Config → Prop)
    (recurse : Config → List Config → Option (List Config)) (type_ : String)
    (installedConfigs : List Config)
    (hlookup : ∀ n dc, getDatabaseConfig data n type_ = some dc → Q dc)
    (hrec : ∀ n dc acc r, getDatabaseConfig data n type_ = some dc →
      ResolverInv data Q installedConfigs acc → recurse dc acc = some r →
      ResolverInv data Q installedConfigs r ∧ acc <+: r)
    (deps : List String) :
    ∀ acc r, ResolverInv data Q installedConfigs acc →
      dependencyLoop data recurse type_ installedConfigs deps acc = some r →
      ∀ n ∈ deps, installedConfigs.any (fun config => config.name_ == n) = false →
        (getDatabaseConfig data n type_).isSome = true → ∃ c ∈ r, c.name_ = n := by
  induction deps with
  | nil => intro acc r _ _ n hn; cases hn
  | cons dep rest ih =>
    intro acc r hinv h n hn hni hsome
    by_cases h1 : installedConfigs.any (fun config => config.name_ == dep) = true
    · rw [dependencyLoop_skip_installed _ _ _ _ _ _ _ h1] at h
      rcases List.mem_cons.1 hn with rfl | hn
      · rw [h1] at hni; cases hni
      · exact ih acc r hinv h n hn hni hsome
    · by_cases h2 : acc.any (fun config => config.name_ == dep) = true
      · rw [dependencyLoop_skip_present _ _ _ _ _ _ _ h2] at h
        rcases List.mem_cons.1 hn with rfl | hn
        · obtain ⟨c, hc, hce⟩ := List.any_eq_true.1 h2
          have hpre := (dependencyLoop_inv data Q recurse type_ installedConfigs hlookup hrec
            rest acc r hinv h).2
          exact ⟨c, hpre.subset hc, by simpa using hce⟩
        · exact ih acc r hinv h n hn hni hsome
      · cases h3 : getDatabaseConfig data dep type_ with
        | none =>
          rw [dependencyLoop_skip_missing _ _ _ _ _ _ _ h3] at h
          rcases List.mem_cons.1 hn with rfl | hn
          · rw [h3] at hsome; cases hsome
          · exact ih acc r hinv h n hn hni hsome
        | some dc =>
          rw [Bool.not_eq_true] at h1 h2
          rw [dependencyLoop_expand _ _ _ _ _ _ _ dc h1 h2 h3] at h
          cases hr : recurse dc (acc ++ [dc]) with
          | none => rw [hr] at h; cases h
          | some acc2 =>
            rw [hr] at h
            have hinv1 := resolverInv_append data Q installedConfigs acc dep type_ dc hinv
              h1 h2 h3 (hlookup dep dc h3)
            obtain ⟨hinv2, hpre2⟩ := hrec dep dc _ acc2 h3 hinv1 hr
            rcases List.mem_cons.1 hn with rfl | hn
            · have hpre3 := (dependencyLoop_inv data Q recurse type_ installedConfigs hlookup
                hrec rest acc2 r hinv2 h).2
              refine ⟨dc, hpre3.subset (hpre2.subset ?_),
                (getDatabaseConfig_some data n type_ dc h3).1⟩
              exact List.mem_append_right _ (List.mem_singleton_self dc)
            · exact ih acc2 r hinv2 h n hn hni hsome

/-- C13: conflict transitivity.  With catalogs that hold configs of their own
bus type, if A names B among its dependencies, B is the config the catalog of
A's bus type holds under that name, X is the only installed config and is
named differently from A and from B, and B declares a conflict pattern that
matches the name of X, then B is in the dependency closure of A and the result
of `getAllLocalConflicts(A)` contains X, whether or not A declares conflict
patterns itself. -/
theorem getAllLocalConflicts_transitive (fnm : String → String → Nat → Int) (data : Data)
    (a b x : Config) (p : String) (htyped : CatalogsTyped data)
    (hdep : b.name_ ∈ a.dependencies_)
    (hb : getDatabaseConfig data b.name_ a.type_ = some b)
    (hinst : installedOfType data a.type_ = [x])
    (hxa : x.name_ ≠ a.name_) (hxb : x.name_ ≠ b.name_)
    (hp : p ∈ b.conflicts_) (hmatch : fnm p x.name_ FNM_CASEFOLD = 0) :
    ∃ deps result : List Config,
      (∀ depth, depthBound data ≤ depth →
        getAllDependenciesToInstall data depth a = some deps ∧
        getAllLocalConflicts fnm data depth a = some result) ∧
      b ∈ deps ∧ x ∈ result := by
  obtain ⟨deps, h1, _, _⟩ := getAllDependenciesToInstallRec_result_typed data htyped
    (installedOfType data a.type_) a
  have hbmem : b ∈ deps := by
    have hrun := h1 (depthBound data) (le_refl _)
    unfold depthBound at hrun
    rw [getAllDependenciesToInstallRec] at hrun
    have hQ : ∀ n dc, getDatabaseConfig data n a.type_ = some dc →
        getDatabaseConfig data dc.name_ a.type_ = some dc :=
      fun n dc hl => (lookup_typed_step data htyped a.type_ a n dc rfl hl).2
    have hrecInv : ∀ n dc acc r, getDatabaseConfig data n a.type_ = some dc →
        ResolverInv data (fun dc => getDatabaseConfig data dc.name_ a.type_ = some dc)
          (installedOfType data a.type_) acc →
        getAllDependenciesToInstallRec data
          (data.allPCIConfigs.length + data.allUSBConfigs.length) dc
          (installedOfType data a.type_) acc = some r →
        ResolverInv data (fun dc => getDatabaseConfig data dc.name_ a.type_ = some dc)
          (installedOfType data a.type_) r ∧ acc <+: r := by
      intro n dc acc r hl hinv hr
      exact getAllDependenciesToInstallRec_inv data
        (fun dc => getDatabaseConfig data dc.name_ a.type_ = some dc)
        (fun c => catalogOfType data c.type_ = catalogOfType data a.type_)
        (installedOfType data a.type_)
        (fun c n dc hg hl => lookup_typed_step data htyped a.type_ c n dc hg hl)
        _ dc acc r (lookup_typed_step data htyped a.type_ a n dc rfl hl).1 hinv hr
    have hni : (installedOfType data a.type_).any (fun config => config.name_ == b.name_)
        = false := by
      rw [hinst]
      simpa using hxb
    obtain ⟨c, hc, hce⟩ := dependencyLoop_named data
      (fun dc => getDatabaseConfig data dc.name_ a.type_ = some dc) _ a.type_
      (installedOfType data a.type_) hQ hrecInv a.dependencies_ [] deps
      (resolverInv_nil _ _ _) hrun b.name_ hdep hni (by rw [hb]; rfl)
    have hinvr := (dependencyLoop_inv data
      (fun dc => getDatabaseConfig data dc.name_ a.type_ = some dc) _ a.type_
      (installedOfType data a.type_) hQ hrecInv a.dependencies_ [] deps
      (resolverInv_nil _ _ _) hrun).1
    have hcq : getDatabaseConfig data c.name_ a.type_ = some c := hinvr.2.2.2 c hc
    rw [hce, hb] at hcq
    rw [Option.some.inj hcq]
    exact hc
  refine ⟨deps, _, fun depth hd => ⟨h1 depth hd,
    getAllLocalConflicts_of_deps fnm data depth a deps (h1 depth hd)⟩, hbmem, ?_⟩
  obtain ⟨_, _, h3, h4⟩ := dependencyConflictLoop_spec fnm a.name_
    (installedOfType data a.type_) (deps ++ [a]) []
  have hfirst : firstConflict fnm a.name_ p (installedOfType data a.type_) = some x := by
    rw [hinst]
    unfold firstConflict
    rw [List.find?_cons_of_pos]
    have hne : (x.name_ == a.name_) = false := by simpa using hxa
    simp [hne, hmatch]
  rcases h4 b (List.mem_append_left _ hbmem) p hp x hfirst with h | ⟨c, hc, _⟩
  · exact h
  · rcases h3 c hc with hnil | ⟨hmem, _⟩
    · cases hnil
    · rw [hinst] at hmem
      rw [List.mem_singleton.1 hmem] at hc
      exact hc

/-- In the example catalog `hybridConfig` declares no conflicts and depends
on `nvidiaConfig`, whose pattern matches the installed `nouveauConfig`. -/
theorem getAllLocalConflicts_transitive_witness :
    CatalogsTyped transitiveData ∧
    hybridConfig.conflicts_ = [] ∧
    nvidiaConfig.name_ ∈ hybridConfig.dependencies_ ∧
    getDatabaseConfig transitiveData nvidiaConfig.name_ hybridConfig.type_ =
      some nvidiaConfig ∧
    installedOfType transitiveData hybridConfig.type_ = [nouveauConfig] ∧
    "video-nouveau*" ∈ nvidiaConfig.conflicts_ ∧
    fnmatch "video-nouveau*" nouveauConfig.name_ FNM_CASEFOLD = 0 ∧
    (∃ deps result : List Config,
      (∀ depth, depthBound transitiveData ≤ depth →
        getAllDependenciesToInstall transitiveData depth hybridConfig = some deps ∧
        getAllLocalConflicts fnmatch transitiveData depth hybridConfig = some result) ∧
      nvidiaConfig ∈ deps ∧ nouveauConfig ∈ result) :=
  ⟨⟨by decide, by decide⟩, rfl, by decide, by decide, rfl, by decide, by decide,
    getAllLocalConflicts_transitive fnmatch transitiveData hybridConfig nvidiaConfig
      nouveauConfig "video-nouveau*" ⟨by decide, by decide⟩ (by decide) (by decide) rfl
      (by decide) (by decide) (by decide) (by decide)⟩

/-- In the example data the installed `networkA` and `bridgeConfig` depend on
`networkB` and `nouveauConfig` does not: the requirements of `networkB` are
the first two, in installed order. -/
theorem getAllLocalRequirements_spec_witness :
    getAllLocalRequirements requirementData networkB = [networkA, bridgeConfig] ∧
    getAllLocalRequirements requirementData nouveauConfig = [] ∧
    (getAllLocalRequirements requirementData networkB =
      firstOfEachName ((installedOfType requirementData networkB.type_).filter
        (fun i => decide (networkB.name_ ∈ i.dependencies_)))) :=
  ⟨by decide, by decide, (getAllLocalRequirements_spec requirementData networkB).1⟩

/-! ## Theorems: the matching pass -/

theorem deviceMatches_congr (fnm : String → String → Nat → Int) (hwdID : HardwareID)
    (a b : Device) (h : SameIDs a b) :
    deviceMatches fnm hwdID a = deviceMatches fnm hwdID b := by
  unfold deviceMatches
  rw [h.1, h.2.1, h.2.2]

theorem checkAllDevicesAt_congr (fnm : String → String → Nat → Int) (hwdID : HardwareID)
    (devices devices2 : List Device) (hf : List.Forall₂ SameIDs devices devices2) :
    ∀ (i : Nat) (state : Bool × List Nat),
      checkAllDevicesAt fnm hwdID devices i state =
        checkAllDevicesAt fnm hwdID devices2 i state := by
  induction hf with
  | nil => intro i state; rfl
  | cons hab _ ih =>
    intro i state
    obtain ⟨b, acc⟩ := state
    rw [checkAllDevicesAt, checkAllDevicesAt, deviceMatches_congr fnm hwdID _ _ hab, ih, ih]

theorem getAllDevicesOfConfigAt_congr (fnm : String → String → Nat → Int)
    (devices devices2 : List Device) (hf : List.Forall₂ SameIDs devices devices2)
    (config : Config) :
    getAllDevicesOfConfigAt fnm devices config = getAllDevicesOfConfigAt fnm devices2 config := by
  unfold getAllDevicesOfConfigAt
  generalize ([] : List Nat) = acc
  induction config.hwdIDs_ generalizing acc with
  | nil => rfl
  | cons r rs ih =>
    rw [hwdIDLoopAt, hwdIDLoopAt, checkAllDevicesAt_congr fnm r devices devices2 hf]
    split
    · rfl
    · exact ih _

theorem checkAllDevicesAt_values (fnm : String → String → Nat → Int) (hwdID : HardwareID)
    (rest : List Device) :
    ∀ (pre : List Device) (b : Bool) (accAt : List Nat) (acc : List Device),
      accAt.map (fun k => (pre ++ rest)[k]?) = acc.map some →
      (checkAllDevicesAt fnm hwdID rest pre.length (b, accAt)).1 =
        (checkAllDevices fnm hwdID rest (b, acc)).1 ∧
      (checkAllDevicesAt fnm hwdID rest pre.length (b, accAt)).2.map
          (fun k => (pre ++ rest)[k]?) =
        (checkAllDevices fnm hwdID rest (b, acc)).2.map some := by
  induction rest with
  | nil =>
    intro pre b accAt acc h
    exact ⟨rfl, h⟩
  | cons d ds ih =>
    intro pre b accAt acc h
    have hsplit : pre ++ d :: ds = (pre ++ [d]) ++ ds := by simp
    have hlen : (pre ++ [d]).length = pre.length + 1 := by simp
    rw [checkAllDevicesAt, checkAllDevices]
    by_cases hd : deviceMatches fnm hwdID d = true
    · rw [if_pos hd, if_pos hd, hsplit, ← hlen]
      apply ih
      have hget : (pre ++ d :: ds)[pre.length]? = some d := by
        rw [List.getElem?_append_right (le_refl _)]
        simp
      rw [← hsplit, List.map_append, List.map_append, h, List.map_singleton,
        List.map_singleton, hget]
    · rw [if_neg hd, if_neg hd, hsplit, ← hlen]
      apply ih
      rw [← hsplit]
      exact h

theorem getAllDevicesOfConfigAt_values (fnm : String → String → Nat → Int)
    (devices : List Device) (config : Config) :
    (getAllDevicesOfConfigAt fnm devices config).map (fun k => devices[k]?) =
      (getAllDevicesOfConfig fnm devices config).map some := by
  unfold getAllDevicesOfConfigAt getAllDevicesOfConfig
  have key : ∀ (rules : List HardwareID) (accAt : List Nat) (acc : List Device),
      accAt.map (fun k => devices[k]?) = acc.map some →
      (hwdIDLoopAt fnm devices rules accAt).map (fun k => devices[k]?) =
        (hwdIDLoop fnm devices rules acc).map some := by
    intro rules
    induction rules with
    | nil => intro accAt acc h; exact h
    | cons r rs ih =>
      intro accAt acc h
      have hv := checkAllDevicesAt_values fnm r devices [] false accAt acc (by simpa using h)
      simp only [List.length_nil, List.nil_append] at hv
      rw [hwdIDLoopAt, hwdIDLoop]
      simp only [hv.1]
      split
      · rfl
      · exact ih _ _ hv.2
  exact key config.hwdIDs_ [] [] rfl

theorem modifyDevice_getElem? (f : Device → Device) (devices : List Device) :
    ∀ (k i : Nat), (modifyDevice f devices k)[i]? =
      if i = k then (devices[i]?).map f else devices[i]? := by
  induction devices with
  | nil => intro k i; simp [modifyDevice]
  | cons d ds ih =>
    intro k i
    cases k with
    | zero =>
      cases i with
      | zero => simp [modifyDevice]
      | succ j => simp [modifyDevice]
    | succ k =>
      cases i with
      | zero => simp [modifyDevice]
      | succ j =>
        rw [modifyDevice, List.getElem?_cons_succ, List.getElem?_cons_succ, ih k j]
        simp

theorem modifyDevice_sameIDs (f : Device → Device) (hf : ∀ d, SameIDs d (f d))
    (devices devices2 : List Device) (h : List.Forall₂ SameIDs devices devices2) :
    ∀ k, List.Forall₂ SameIDs devices (modifyDevice f devices2 k) := by
  induction h with
  | nil => intro k; exact List.Forall₂.nil
  | cons hab hrest ih =>
    intro k
    cases k with
    | zero =>
      rw [modifyDevice]
      exact List.Forall₂.cons
        ⟨hab.1.trans (hf _).1, hab.2.1.trans (hf _).2.1, hab.2.2.trans (hf _).2.2⟩ hrest
    | succ k =>
      rw [modifyDevice]
      exact List.Forall₂.cons hab (ih k)

theorem addConfigToDevice_sameIDs (config : Config) (setAsInstalled : Bool) (d : Device) :
    SameIDs d (addConfigToDevice config setAsInstalled d) := by
  unfold addConfigToDevice
  cases setAsInstalled <;> exact ⟨rfl, rfl, rfl⟩

theorem mem_addConfigSorted (configs : List Config) (newConfig x : Config)
    (h : x ∈ addConfigSorted configs newConfig) : x ∈ configs ∨ x = newConfig := by
  by_cases hnew : newConfig.name_ ∈ configs.map (fun c => c.name_)
  · obtain ⟨c, hc, hce⟩ := List.mem_map.1 hnew
    rw [addConfigSorted_of_present configs newConfig ⟨c, hc, hce⟩] at h
    exact Or.inl h
  · rw [addConfigSorted_of_new configs newConfig hnew] at h
    rcases List.mem_cons.1 ((insertByPriority_perm newConfig configs).subset h) with h | h
    · exact Or.inr h
    · exact Or.inl h

theorem mem_addConfigToDevice (config : Config) (setAsInstalled : Bool) (d : Device)
    (x : Config)
    (h : x ∈ (addConfigToDevice config setAsInstalled d).availableConfigs_ ∨
      x ∈ (addConfigToDevice config setAsInstalled d).installedConfigs_) :
    (x ∈ d.availableConfigs_ ∨ x ∈ d.installedConfigs_) ∨ x = config := by
  unfold addConfigToDevice at h
  cases setAsInstalled with
  | true =>
    simp only [if_true] at h
    rcases h with h | h
    · exact Or.inl (Or.inl h)
    · rcases mem_addConfigSorted _ _ _ h with h | h
      · exact Or.inl (Or.inr h)
      · exact Or.inr h
  | false =>
    simp only [Bool.false_eq_true, if_false] at h
    rcases h with h | h
    · rcases mem_addConfigSorted _ _ _ h with h | h
      · exact Or.inl (Or.inl h)
      · exact Or.inr h
    · exact Or.inl (Or.inr h)

theorem forall₂_sameIDs_refl (devices : List Device) :
    List.Forall₂ SameIDs devices devices := by
  induction devices with
  | nil => exact List.Forall₂.nil
  | cons d ds ih => exact List.Forall₂.cons ⟨rfl, rfl, rfl⟩ ih

theorem foldl_modifyDevice_inv (fnm : String → String → Nat → Int) (devices0 : List Device)
    (done : List Config) (config : Config) (setAsInstalled : Bool) (ks : List Nat)
    (hks : ∀ k ∈ ks, k ∈ getAllDevicesOfConfigAt fnm devices0 config) :
    ∀ devices : List Device, List.Forall₂ SameIDs devices0 devices →
      (∀ i d, devices[i]? = some d →
        ∀ x, (x ∈ d.availableConfigs_ ∨ x ∈ d.installedConfigs_) →
          x ∈ done ++ [config] ∧ i ∈ getAllDevicesOfConfigAt fnm devices0 x) →
      List.Forall₂ SameIDs devices0
        (ks.foldl (fun devices foundDevice =>
          modifyDevice (addConfigToDevice config setAsInstalled) devices foundDevice)
          devices) ∧
      (∀ i d, (ks.foldl (fun devices foundDevice =>
          modifyDevice (addConfigToDevice config setAsInstalled) devices foundDevice)
          devices)[i]? = some d →
        ∀ x, (x ∈ d.availableConfigs_ ∨ x ∈ d.installedConfigs_) →
          x ∈ done ++ [config] ∧ i ∈ getAllDevicesOfConfigAt fnm devices0 x) := by
  induction ks with
  | nil => intro devices hf hinv; exact ⟨hf, hinv⟩
  | cons k rest ih =>
    intro devices hf hinv
    rw [List.foldl_cons]
    apply ih (fun j hj => hks j (List.mem_cons_of_mem _ hj))
    · exact modifyDevice_sameIDs _ (addConfigToDevice_sameIDs config setAsInstalled)
        devices0 devices hf k
    · intro i d hd x hx
      rw [modifyDevice_getElem?] at hd
      by_cases hik : i = k
      · rw [if_pos hik] at hd
        cases hd0 : devices[i]? with
        | none => rw [hd0] at hd; cases hd
        | some d0 =>
          rw [hd0] at hd
          have hdeq : addConfigToDevice config setAsInstalled d0 = d := by
            simpa using hd
          rw [← hdeq] at hx
          rcases mem_addConfigToDevice config setAsInstalled d0 x hx with hx | hx
          · exact hinv i d0 hd0 x hx
          · rw [hx, hik]
            exact ⟨List.mem_append_right _ (List.mem_singleton_self _),
              hks k (List.mem_cons_self _ _)⟩
      · rw [if_neg hik] at hd
        exact hinv i d hd x hx

theorem setMatchingConfigs_inv (fnm : String → String → Nat → Int) (devices0 : List Device)
    (setAsInstalled : Bool) (configs : List Config) :
    ∀ (done : List Config) (devices : List Device),
      List.Forall₂ SameIDs devices0 devices →
      (∀ i d, devices[i]? = some d →
        ∀ x, (x ∈ d.availableConfigs_ ∨ x ∈ d.installedConfigs_) →
          x ∈ done ∧ i ∈ getAllDevicesOfConfigAt fnm devices0 x) →
      List.Forall₂ SameIDs devices0 (setMatchingConfigs fnm devices configs setAsInstalled) ∧
      (∀ i d, (setMatchingConfigs fnm devices configs setAsInstalled)[i]? = some d →
        ∀ x, (x ∈ d.availableConfigs_ ∨ x ∈ d.installedConfigs_) →
          x ∈ done ++ configs ∧ i ∈ getAllDevicesOfConfigAt fnm devices0 x) := by
  induction configs with
  | nil =>
    intro done devices hf hinv
    refine ⟨hf, ?_⟩
    intro i d hd x hx
    rw [List.append_nil]
    exact hinv i d hd x hx
  | cons c rest ih =>
    intro done devices hf hinv
    have hstep := foldl_modifyDevice_inv fnm devices0 done c setAsInstalled
      (getAllDevicesOfConfigAt fnm devices c)
      (fun k hk => by
        rw [getAllDevicesOfConfigAt_congr fnm devices0 devices hf c]
        exact hk)
      devices hf
      (fun i d hd x hx =>
        ⟨List.mem_append_left _ (hinv i d hd x hx).1, (hinv i d hd x hx).2⟩)
    have hrest := ih (done ++ [c]) (setMatchingConfig fnm c devices setAsInstalled)
      hstep.1 hstep.2
    have heq : setMatchingConfigs fnm devices (c :: rest) setAsInstalled =
        setMatchingConfigs fnm (setMatchingConfig fnm c devices setAsInstalled) rest
          setAsInstalled := rfl
    rw [heq]
    refine ⟨hrest.1, ?_⟩
    intro i d hd x hx
    have := hrest.2 i d hd x hx
    rw [List.append_assoc, List.singleton_append] at this
    exact this

/-- C20: no dangling references after the matching pass.  For devices whose
config lists start empty, after `setMatchingConfigs` every config in the
available or installed list of a device is a member of the config vector that
was passed, the pointer of that device (its position) is among the pointers
`getAllDevicesOfConfig` returns for that config over the device vector, and
the device is in the result of `getAllDevicesOfConfig` for that config over
the devices as they are after the pass; the pass changes no identifier. -/
theorem setMatchingConfigs_no_dangling (fnm : String → String → Nat → Int)
    (devices : List Device) (configs : List Config) (setAsInstalled : Bool)
    (hempty : ∀ d ∈ devices, d.availableConfigs_ = [] ∧ d.installedConfigs_ = []) :
    List.Forall₂ SameIDs devices (setMatchingConfigs fnm devices configs setAsInstalled) ∧
    ∀ i d, (setMatchingConfigs fnm devices configs setAsInstalled)[i]? = some d →
      ∀ c, (c ∈ d.availableConfigs_ ∨ c ∈ d.installedConfigs_) →
        c ∈ configs ∧
        i ∈ getAllDevicesOfConfigAt fnm devices c ∧
        d ∈ getAllDevicesOfConfig fnm
          (setMatchingConfigs fnm devices configs setAsInstalled) c := by
  obtain ⟨hf, hinv⟩ := setMatchingConfigs_inv fnm devices setAsInstalled configs [] devices
    (forall₂_sameIDs_refl devices)
    (fun i d hd x hx => by
      have hmem : d ∈ devices := List.getElem?_mem hd
      obtain ⟨h1, h2⟩ := hempty d hmem
      rw [h1, h2] at hx
      rcases hx with hx | hx <;> cases hx)
  refine ⟨hf, ?_⟩
  intro i d hd c hc
  obtain ⟨h1, h2⟩ := hinv i d hd c hc
  rw [List.nil_append] at h1
  refine ⟨h1, h2, ?_⟩
  have h3 : i ∈ getAllDevicesOfConfigAt fnm
      (setMatchingConfigs fnm devices configs setAsInstalled) c := by
    rw [← getAllDevicesOfConfigAt_congr fnm devices _ hf c]
    exact h2
  have h4 : some d ∈ (getAllDevicesOfConfigAt fnm
      (setMatchingConfigs fnm devices configs setAsInstalled) c).map
      (fun k => (setMatchingConfigs fnm devices configs setAsInstalled)[k]?) :=
    List.mem_map.2 ⟨i, h3, hd⟩
  rw [getAllDevicesOfConfigAt_values] at h4
  obtain ⟨d2, hd2, hde⟩ := List.mem_map.1 h4
  rw [← Option.some.inj hde]
  exact hd2

/-- The matching pass over the two example devices and three configs: both
devices get `video-vesa` before `video-nvidia` (descending priority), neither
gets `audio-any`, and the installed lists stay empty. -/
theorem setMatchingConfigs_no_dangling_witness :
    (∀ d ∈ [gpuDevice, nicDevice], d.availableConfigs_ = [] ∧ d.installedConfigs_ = []) ∧
    (setMatchingConfigs fnmatch [gpuDevice, nicDevice] matchingConfigs false).map
        (fun d => (d.availableConfigs_.map (fun c => c.name_), d.installedConfigs_)) =
      [(["video-vesa", "video-nvidia"], []), (["video-vesa", "video-nvidia"], [])] ∧
    (List.Forall₂ SameIDs [gpuDevice, nicDevice]
        (setMatchingConfigs fnmatch [gpuDevice, nicDevice] matchingConfigs false) ∧
      ∀ i d, (setMatchingConfigs fnmatch [gpuDevice, nicDevice] matchingConfigs false)[i]? =
          some d →
        ∀ c, (c ∈ d.availableConfigs_ ∨ c ∈ d.installedConfigs_) →
          c ∈ matchingConfigs ∧
          i ∈ getAllDevicesOfConfigAt fnmatch [gpuDevice, nicDevice] c ∧
          d ∈ getAllDevicesOfConfig fnmatch
            (setMatchingConfigs fnmatch [gpuDevice, nicDevice] matchingConfigs false) c) :=
  ⟨by decide, by decide,
    setMatchingConfigs_no_dangling fnmatch [gpuDevice, nicDevice] matchingConfigs false
      (by decide)⟩

end Mhwd
